import Mathlib

/-!
# A shallow embedding of the limit-order book of `src/order_book/orderbook.cpp`

The C++ program keeps three containers: two `std::map`s from price to a
`std::list` of shared order pointers (bids ordered by `std::greater`, asks by
`std::less`) and one `std::unordered_map` from order id to an entry holding the
order pointer and the list iterator of its node.

Modelling decisions (each one is local and named where it is used):

* `Price` is `float` in the source.  The model keeps what the program does with a price,
  which is to compare it: a price is an exact number or `NaN`, and every comparison with
  `NaN` is false, as for `float`.  Rounding and signed zero are outside the model.
* `Quantity` is `std::uint32_t`.  The matching code only ever computes a
  minimum and a guarded subtraction on quantities, so they are `Nat` here; the
  one place where the source can wrap (the accumulation of the depth snapshot,
  `CreateLevelInfos`) reduces modulo `2 ^ 32` explicitly.
* A `std::map` is a list of `(key, queue)` pairs, `begin()` being the head of the list.
  `operator[]` walks it with the map's comparator alone, the way the tree search does: keys
  ordered before the wanted one are skipped, and the first other key either is equivalent to
  the wanted one under the comparator (its queue is returned) or marks the place of a new
  level.
* A `std::list<std::shared_ptr<Order>>` is a `List Order`: the live order
  object (with its current remaining quantity) is the list element.  An index entry records
  the immutable kind, side and price of the order it points to.
* A C++ reference into a container node is valid as long as the node lives.  Reading through
  it after the node was erased is undefined behaviour, and the model says so: the call ends
  in the result `Error.undefined_behaviour` at the first such read.  This is the case in
  `CancelOrder` (line 195 reads `order`, bound at line 192 into the index node erased at
  line 193), in the loop of `MatchOrders` (lines 309 and 315 read `bid` and `ask` after
  `pop_front` destroyed the list node they refer to) and in the modify operation (line 222
  reads `existing_order` after `CancelOrder`).
* Exceptions, undefined behaviour and a loop that never exits are results of type `Error`;
  successful calls return the new state.
-/

namespace OB

/-- Kinds of order duration (`enum class OrderType`). -/
inductive OrderType where
  | GoodTillCancel
  | FillAndKill
  deriving DecidableEq, Repr

/-- The two sides of the book (`enum class Side`). -/
inductive Side where
  | Buy
  | Sell
  deriving DecidableEq, Repr

/-- The type `Price` (`float`): an exact number, or the value `NaN`. -/
inductive Price where
  | num (v : Int)
  | nan
  deriving DecidableEq, Repr

/-- The comparison `a < b` of two `float`s: false as soon as one of them is `NaN`. -/
def Price.lt : Price → Price → Bool
  | .num a, .num b => decide (a < b)
  | _, _ => false

/-- The comparison `a <= b` of two `float`s: false as soon as one of them is `NaN`. -/
def Price.le : Price → Price → Bool
  | .num a, .num b => decide (a ≤ b)
  | _, _ => false

instance : LT Price := ⟨fun a b => Price.lt a b = true⟩

instance : LE Price := ⟨fun a b => Price.le a b = true⟩

instance (a b : Price) : Decidable (a < b) := inferInstanceAs (Decidable (Price.lt a b = true))

instance (a b : Price) : Decidable (a ≤ b) := inferInstanceAs (Decidable (Price.le a b = true))

instance : Min Price := minOfLe

instance : Max Price := maxOfLe

instance (n : Nat) : OfNat Price n := ⟨Price.num (Int.ofNat n)⟩

abbrev Quantity := Nat
abbrev OrderID := Int

/-- Ways in which a call fails to return normally. -/
inductive Error where
  | logic_error
  | out_of_range
  | undefined_behaviour
  | no_return
  deriving DecidableEq, Repr

deriving instance DecidableEq for Except

/-- The fill state of one order (`class Order`). -/
structure Order where
  order_type : OrderType
  order_id : OrderID
  side : Side
  price : Price
  initial_qty : Quantity
  remaining_qty : Quantity
  deriving DecidableEq, Repr

/-- The constructor of `Order`: the remaining quantity starts at the initial one. -/
def Order.make (order_type_ : OrderType) (order_id_ : OrderID) (side_ : Side) (price_ : Price)
    (quantity_ : Quantity) : Order :=
  ⟨order_type_, order_id_, side_, price_, quantity_, quantity_⟩

/-- The predicate `Order::isFilled`. -/
def Order.isFilled (o : Order) : Bool := o.remaining_qty == 0

/-- The method `Order::Fill`: throws when asked for more than what remains. -/
def Order.Fill (o : Order) (quantity : Quantity) : Except Error Order :=
  if quantity > o.remaining_qty then .error .logic_error
  else .ok ⟨o.order_type, o.order_id, o.side, o.price, o.initial_qty, o.remaining_qty - quantity⟩

/-- The request record `class OrderModify`. -/
structure OrderModify where
  order_id : OrderID
  side : Side
  price : Price
  quantity : Quantity
  deriving DecidableEq, Repr

/-- The method `OrderModify::ToOrderPointer`. -/
def OrderModify.ToOrderPointer (m : OrderModify) (order_type : OrderType) : Order :=
  Order.make order_type m.order_id m.side m.price m.quantity

/-- One side of a trade (`struct TradeInfo`). -/
structure TradeInfo where
  order_id : OrderID
  price : Price
  quantity : Quantity
  deriving DecidableEq, Repr

/-- A matched pair of fills (`class Trade`). -/
structure Trade where
  bid_trade : TradeInfo
  ask_trade : TradeInfo
  deriving DecidableEq, Repr

abbrev Trades := List Trade
abbrev OrderPointers := List Order
abbrev Levels := List (Price × OrderPointers)

/-- The value type of the index (`struct OrderEntry`).  The entry records the immutable kind,
side and price of the order its pointer designates; the list iterator is the node holding the
order with the entry's key. -/
structure OrderEntry where
  order_type : OrderType
  side : Side
  price : Price
  deriving DecidableEq, Repr

abbrev OrderIndex := List (OrderID × OrderEntry)

/-- The state of `class OrderBook`. -/
structure OrderBook where
  bids : Levels
  asks : Levels
  orders : OrderIndex
  deriving DecidableEq, Repr

/-- A default-constructed `OrderBook`. -/
def OrderBook.empty : OrderBook := ⟨[], [], []⟩

/-! ### Container operations -/

/-- The comparator `std::greater<Price>` of the bid map. -/
def bidBefore (a b : Price) : Bool := decide (a > b)

/-- The comparator `std::less<Price>` of the ask map. -/
def askBefore (a b : Price) : Bool := decide (a < b)

/-- The statement pair `auto& orders_ = side[price]; orders_.push_back(order)`.  The lookup
`operator[]` skips the keys the comparator orders before `price`; at the first other key it
creates a new level in front of it when `price` is ordered before that key, and otherwise
takes that key's queue, the two keys being equivalent under the comparator.  The order is
then appended to the queue. -/
def levelPush (before : Price → Price → Bool) (price : Price) (order : Order) : Levels → Levels
  | [] => [(price, [order])]
  | (k, q) :: rest =>
    if before k price then (k, q) :: levelPush before price order rest
    else if before price k then (price, [order]) :: (k, q) :: rest
    else (k, q ++ [order]) :: rest

/-- The test `orders.contains(id)`. -/
def indexContains (orders : OrderIndex) (id : OrderID) : Bool :=
  orders.any (fun e => e.1 == id)

/-- The insertion `orders.insert({id, entry})`, which keeps an existing entry. -/
def indexInsert (orders : OrderIndex) (id : OrderID) (e : OrderEntry) : OrderIndex :=
  if indexContains orders id then orders else orders ++ [(id, e)]

/-- The method `OrderBook::Size`. -/
def OrderBook.Size (ob : OrderBook) : Nat := ob.orders.length

/-! ### The engine -/

/-- The method `OrderBook::CanMatch`. -/
def CanMatch (ob : OrderBook) (side : Side) (price : Price) : Bool :=
  match side with
  | .Buy =>
    match ob.asks with
    | [] => false
    | (best_ask, _) :: _ => decide (price ≥ best_ask)
  | .Sell =>
    match ob.bids with
    | [] => false
    | (best_bid, _) :: _ => decide (price ≤ best_bid)

/-- The method `OrderBook::CancelOrder` (source lines 187 to 214).  For an id of the index,
line 192 binds `order` and `order_iter` as references into the index node of the id, line 193
erases that node, and line 195 reads `order` through the reference: the read of an object
that was destroyed, after which nothing about the call is defined. -/
def CancelOrder (ob : OrderBook) (order_id : OrderID) : Except Error OrderBook :=
  if !indexContains ob.orders order_id then .ok ob
  else .error .undefined_behaviour

/-- One execution of the body of the inner `while` of `MatchOrders` (source lines 298 to 327)
on the front orders of the two top levels.  `bid` and `ask` are references to the first
elements of the queues.  When the bid is filled, line 308 pops it, which destroys the node
`bid` refers to, and line 309 reads `bid`; when the ask is filled, lines 314 and 315 do the
same with `ask`.  When neither is filled no node is destroyed and the trade is built from the
two live orders. -/
def matchStep (ob : OrderBook) : Except Error (OrderBook × Trade) :=
  match ob.bids, ob.asks with
  | (bid_price, bid :: bids_tail) :: bids_rest, (ask_price, ask :: asks_tail) :: asks_rest =>
    let quantity := min bid.remaining_qty ask.remaining_qty
    match bid.Fill quantity with
    | .error e => .error e
    | .ok bid1 =>
      match ask.Fill quantity with
      | .error e => .error e
      | .ok ask1 =>
        if bid1.isFilled then .error .undefined_behaviour
        else if ask1.isFilled then .error .undefined_behaviour
        else
          .ok (⟨(bid_price, bid1 :: bids_tail) :: bids_rest,
                (ask_price, ask1 :: asks_tail) :: asks_rest, ob.orders⟩,
            ⟨⟨bid1.order_id, bid1.price, quantity⟩, ⟨ask1.order_id, ask1.price, quantity⟩⟩)
  | _, _ => .error .undefined_behaviour

/-- The two nested `while` loops of `MatchOrders` (source lines 287 to 329).  Each unit of
fuel pays for one test of the outer conditions followed by at most one execution of the inner
body; the inner loop keeps the same two levels as long as both queues are non-empty, which
is what repeating the outer tests on an unchanged pair of top levels does.  When a top level
has an empty queue the inner loop does nothing and the outer loop repeats on the same state. -/
def matchLoop : Nat → OrderBook → Trades → Except Error (OrderBook × Trades)
  | 0, _, _ => .error .no_return
  | fuel + 1, ob, trades =>
    match ob.bids, ob.asks with
    | [], _ => .ok (ob, trades)
    | _ :: _, [] => .ok (ob, trades)
    | (bid_price, bids_) :: _, (ask_price, asks_) :: _ =>
      if bid_price < ask_price then .ok (ob, trades)
      else if bids_.length ≠ 0 ∧ asks_.length ≠ 0 then
        match matchStep ob with
        | .error e => .error e
        | .ok (ob1, trade) => matchLoop fuel ob1 (trades ++ [trade])
      else matchLoop fuel ob trades

/-- The check after the loops (source lines 330 to 336 and 338 to 344) for one side: cancel
the front order of the top level when its kind is `FillAndKill`. -/
def cancelFrontFAK (ob : OrderBook) (levels : Levels) : Except Error OrderBook :=
  match levels with
  | [] => .ok ob
  | (_, []) :: _ => .error .undefined_behaviour
  | (_, order :: _) :: _ =>
    if order.order_type = OrderType.FillAndKill then CancelOrder ob order.order_id else .ok ob

/-- The number of orders held in the queues of a side. -/
def levelsCount (levels : Levels) : Nat := (levels.map (fun l => l.2.length)).sum

/-- The private method `OrderBook::MatchOrders()`.  The loop is run with one unit of fuel
more than there are orders in the queues; one unit is enough whenever the loop exits at all
(see `matchLoop_fuel`). -/
def MatchOrders (ob : OrderBook) : Except Error (OrderBook × Trades) :=
  match matchLoop (levelsCount ob.bids + levelsCount ob.asks + 1) ob [] with
  | .error e => .error e
  | .ok (ob1, trades) =>
    match cancelFrontFAK ob1 ob1.bids with
    | .error e => .error e
    | .ok ob2 =>
      match cancelFrontFAK ob2 ob2.asks with
      | .error e => .error e
      | .ok ob3 => .ok (ob3, trades)

/-- The method `OrderBook::AddOrder`. -/
def AddOrder (ob : OrderBook) (order : Order) : Except Error (OrderBook × Trades) :=
  if indexContains ob.orders order.order_id then .ok (ob, [])
  else if order.order_type = OrderType.FillAndKill ∧ ¬ CanMatch ob order.side order.price then
    .ok (ob, [])
  else
    let ob1 : OrderBook :=
      if order.side = Side.Buy then
        ⟨levelPush bidBefore order.price order ob.bids, ob.asks, ob.orders⟩
      else
        ⟨ob.bids, levelPush askBefore order.price order ob.asks, ob.orders⟩
    MatchOrders ⟨ob1.bids, ob1.asks, indexInsert ob1.orders order.order_id
      ⟨order.order_type, order.side, order.price⟩⟩

/-- The public method `OrderBook::MatchOrders(OrderModify)`, the modify operation (source
lines 216 to 223).  For an id of the index, line 220 binds `existing_order` as a reference
into the index node of the id and line 221 calls `CancelOrder`, which erases that node; were
the call to return, line 222 would read `existing_order` through the reference. -/
def Modify (ob : OrderBook) (order : OrderModify) : Except Error (OrderBook × Trades) :=
  if !indexContains ob.orders order.order_id then .ok (ob, [])
  else
    match CancelOrder ob order.order_id with
    | .error e => .error e
    | .ok _ => .error .undefined_behaviour

/-- One entry of the depth snapshot (`struct LevelInfo`). -/
structure LevelInfo where
  price_ : Price
  quantity_ : Quantity
  deriving DecidableEq, Repr

/-- The lambda `CreateLevelInfos` of `GetOrderInfos`: `std::accumulate` keeps its accumulator
in a `Quantity`, so every partial sum is stored back modulo `2 ^ 32`. -/
def CreateLevelInfos (price : Price) (orders_ : OrderPointers) : LevelInfo :=
  ⟨price, orders_.foldl (fun running_sum order => (running_sum + order.remaining_qty) % 2 ^ 32) 0⟩

/-- The method `OrderBook::GetOrderInfos`: the bid entries and the ask entries, each in the
order of its map. -/
def GetOrderInfos (ob : OrderBook) : List LevelInfo × List LevelInfo :=
  (ob.bids.map (fun l => CreateLevelInfos l.1 l.2), ob.asks.map (fun l => CreateLevelInfos l.1 l.2))

/-- States that a sequence of public calls, each of which returns, produces from the empty
book. -/
inductive Reachable : OrderBook → Prop where
  | empty : Reachable OrderBook.empty
  | add (ob : OrderBook) (order : Order) (r : OrderBook × Trades) :
      Reachable ob → AddOrder ob order = .ok r → Reachable r.1
  | cancel (ob : OrderBook) (order_id : OrderID) (ob1 : OrderBook) :
      Reachable ob → CancelOrder ob order_id = .ok ob1 → Reachable ob1
  | modify (ob : OrderBook) (order : OrderModify) (r : OrderBook × Trades) :
      Reachable ob → Modify ob order = .ok r → Reachable r.1

/-! ### Vocabulary of the statements -/

/-- The orders of one side in book order: levels in map order, each queue front first. -/
def levelOrders : Levels → List Order
  | [] => []
  | l :: rest => l.2 ++ levelOrders rest

/-- All resting orders, bids first. -/
def OrderBook.resting (ob : OrderBook) : List Order :=
  levelOrders ob.bids ++ levelOrders ob.asks

/-- The state `AddOrder` hands to `MatchOrders` (source lines 168 to 183): the order appended
to the queue that `operator[]` returns on its side, and entered in the index. -/
def OrderBook.inserted (ob : OrderBook) (order : Order) : OrderBook :=
  ⟨if order.side = Side.Buy then levelPush bidBefore order.price order ob.bids else ob.bids,
   if order.side = Side.Buy then ob.asks else levelPush askBefore order.price order ob.asks,
   indexInsert ob.orders order.order_id ⟨order.order_type, order.side, order.price⟩⟩

/-- The exit tests of the outer loop of `MatchOrders` (source lines 289 and 294): a side is
empty, or the key of the top bid level is less than the key of the top ask level. -/
def loopExits (ob : OrderBook) : Bool :=
  match ob.bids, ob.asks with
  | [], _ => true
  | _ :: _, [] => true
  | (bid_price, _) :: _, (ask_price, _) :: _ => decide (bid_price < ask_price)

/-- The front order of the top level of a side. -/
def frontOf : Levels → Option Order
  | (_, o :: _) :: _ => some o
  | _ => none

/-- The order after a successful `Fill`. -/
def Order.filledBy (o : Order) (quantity : Quantity) : Order :=
  ⟨o.order_type, o.order_id, o.side, o.price, o.initial_qty, o.remaining_qty - quantity⟩

/-- The lowest price key of a side, if it has a level. -/
def lowestPrice : Levels → Option Price
  | [] => none
  | l :: rest =>
    match lowestPrice rest with
    | none => some l.1
    | some m => some (min l.1 m)

/-- The highest price key of a side, if it has a level. -/
def highestPrice : Levels → Option Price
  | [] => none
  | l :: rest =>
    match highestPrice rest with
    | none => some l.1
    | some m => some (max l.1 m)

/-- The book after `AddOrder(GoodTillCancel, 1, Buy, 100, 10)` on the empty book. -/
def bookOneBid : OrderBook :=
  ⟨[(100, [Order.make .GoodTillCancel 1 .Buy 100 10])], [],
   [(1, ⟨.GoodTillCancel, .Buy, 100⟩)]⟩

/-- The book after `AddOrder(GoodTillCancel, 1, Sell, 100, 5)` on the empty book. -/
def bookOneAsk : OrderBook :=
  ⟨[], [(100, [Order.make .GoodTillCancel 1 .Sell 100 5])], [(1, ⟨.GoodTillCancel, .Sell, 100⟩)]⟩

/-- The book after two sell orders of quantity 5 at price 100, ids 1 and 2. -/
def bookTwoAsks : OrderBook :=
  ⟨[], [(100, [Order.make .GoodTillCancel 1 .Sell 100 5, Order.make .GoodTillCancel 2 .Sell 100 5])],
   [(1, ⟨.GoodTillCancel, .Sell, 100⟩), (2, ⟨.GoodTillCancel, .Sell, 100⟩)]⟩

/-- The book after a buy of 10 at price 100 (id 1) and a sell of 5 at price 101 (id 2). -/
def bookBothSides : OrderBook :=
  ⟨[(100, [Order.make .GoodTillCancel 1 .Buy 100 10])],
   [(101, [Order.make .GoodTillCancel 2 .Sell 101 5])],
   [(1, ⟨.GoodTillCancel, .Buy, 100⟩), (2, ⟨.GoodTillCancel, .Sell, 101⟩)]⟩

/-- The book `bookOneBid` with the sell order of quantity 4 at price 100, id 2, inserted: the
state the matching loop starts from in Scenario B. -/
def bookCrossed : OrderBook :=
  ⟨[(100, [Order.make .GoodTillCancel 1 .Buy 100 10])],
   [(100, [Order.make .GoodTillCancel 2 .Sell 100 4])],
   [(1, ⟨.GoodTillCancel, .Buy, 100⟩), (2, ⟨.GoodTillCancel, .Sell, 100⟩)]⟩

/-- The third order of Scenario D: a buy of 7 at price 100. -/
def buySeven : Order := Order.make .GoodTillCancel 3 .Buy 100 7

/-- The book after two buy orders of quantity `2 ^ 31` at price 100, ids 1 and 2. -/
def bookWrap : OrderBook :=
  ⟨[(100, [Order.make .GoodTillCancel 1 .Buy 100 2147483648,
           Order.make .GoodTillCancel 2 .Buy 100 2147483648])], [],
   [(1, ⟨.GoodTillCancel, .Buy, 100⟩), (2, ⟨.GoodTillCancel, .Buy, 100⟩)]⟩

/-- The book after `AddOrder(GoodTillCancel, 1, Buy, 100, 0)` on the empty book. -/
def bookZero : OrderBook :=
  ⟨[(100, [Order.make .GoodTillCancel 1 .Buy 100 0])], [], [(1, ⟨.GoodTillCancel, .Buy, 100⟩)]⟩

/-- The book after `AddOrder(GoodTillCancel, 1, Buy, 100, 10)` and then
`AddOrder(GoodTillCancel, 2, Buy, NaN, 5)`: the lookup `bids[NaN]` finds the level of key 100
equivalent to `NaN`, so order 2 is queued there. -/
def bookNan : OrderBook :=
  ⟨[(100, [Order.make .GoodTillCancel 1 .Buy 100 10,
           Order.make .GoodTillCancel 2 .Buy Price.nan 5])], [],
   [(1, ⟨.GoodTillCancel, .Buy, 100⟩), (2, ⟨.GoodTillCancel, .Buy, Price.nan⟩)]⟩

/-- States that public calls produce from the empty book when every submitted quantity is
positive. -/
inductive ReachablePos : OrderBook → Prop where
  | empty : ReachablePos OrderBook.empty
  | add (ob : OrderBook) (order : Order) (r : OrderBook × Trades) :
      ReachablePos ob → 0 < order.remaining_qty → AddOrder ob order = .ok r → ReachablePos r.1
  | cancel (ob : OrderBook) (order_id : OrderID) (ob1 : OrderBook) :
      ReachablePos ob → CancelOrder ob order_id = .ok ob1 → ReachablePos ob1
  | modify (ob : OrderBook) (order : OrderModify) (r : OrderBook × Trades) :
      ReachablePos ob → 0 < order.quantity → Modify ob order = .ok r → ReachablePos r.1

/-- States that public calls produce from the empty book when no submitted price is `NaN`. -/
inductive ReachableNum : OrderBook → Prop where
  | empty : ReachableNum OrderBook.empty
  | add (ob : OrderBook) (order : Order) (r : OrderBook × Trades) :
      ReachableNum ob → order.price ≠ Price.nan → AddOrder ob order = .ok r → ReachableNum r.1
  | cancel (ob : OrderBook) (order_id : OrderID) (ob1 : OrderBook) :
      ReachableNum ob → CancelOrder ob order_id = .ok ob1 → ReachableNum ob1
  | modify (ob : OrderBook) (order : OrderModify) (r : OrderBook × Trades) :
      ReachableNum ob → order.price ≠ Price.nan → Modify ob order = .ok r → ReachableNum r.1

/-- Every resting order has something left to fill. -/
def AllPositive (ob : OrderBook) : Prop :=
  ∀ o ∈ ob.resting, 0 < o.remaining_qty

/-- The resting orders of the side opposite to `side`, best level first. -/
def oppositeOrders (ob : OrderBook) (side : Side) : List Order :=
  match side with
  | .Buy => levelOrders ob.asks
  | .Sell => levelOrders ob.bids

/-- Whether a resting order of the opposite side is priced so that an incoming order of side
`side` with limit price `p` can trade with it: an ask priced at most `p` for a buy, a bid
priced at least `p` for a sell. -/
def crosses (side : Side) (p : Price) (o : Order) : Bool :=
  match side with
  | .Buy => decide (o.price ≤ p)
  | .Sell => decide (p ≤ o.price)

/-- The total remaining quantity of those orders of a list that cross an incoming order of
side `side` priced `p`. -/
def crossingTotal (side : Side) (p : Price) (orders : List Order) : Nat :=
  ((orders.filter (crosses side p)).map Order.remaining_qty).sum

/-- The levels of the side an order of side `side` belongs to. -/
def sameSideLevels (ob : OrderBook) (side : Side) : Levels :=
  match side with
  | .Buy => ob.bids
  | .Sell => ob.asks

/-- The sum of the quantities of a sequence of trades. -/
def tradedSum (ts : Trades) : Nat := (ts.map (fun t => t.bid_trade.quantity)).sum

/-- What holds of every state between two public calls: no level has an empty queue, the
orders of a side carry that side, ids are unique among the resting orders and are exactly the
keys of the index, no resting order is of kind `FillAndKill`, and the exit tests of the
matching loop hold. -/
structure BookInv (ob : OrderBook) : Prop where
  bids_nonempty : ∀ l ∈ ob.bids, l.2 ≠ []
  asks_nonempty : ∀ l ∈ ob.asks, l.2 ≠ []
  bids_side : ∀ o ∈ levelOrders ob.bids, o.side = Side.Buy
  asks_side : ∀ o ∈ levelOrders ob.asks, o.side = Side.Sell
  ids_nodup : (ob.resting.map Order.order_id).Nodup
  index_iff : ∀ id, indexContains ob.orders id = true ↔ id ∈ ob.resting.map Order.order_id
  no_fak : ∀ o ∈ ob.resting, o.order_type = OrderType.GoodTillCancel
  exits : loopExits ob = true

/-- What holds in addition when no price was `NaN`: the keys of each map are numbers in the
comparator's order, and every order is queued under its own limit price. -/
structure NumInv (ob : OrderBook) : Prop where
  bids_sorted : ob.bids.Pairwise (fun a b => a.1 > b.1)
  asks_sorted : ob.asks.Pairwise (fun a b => a.1 < b.1)
  bids_price : ∀ l ∈ ob.bids, l.1 ≠ Price.nan ∧ ∀ o ∈ l.2, o.price = l.1
  asks_price : ∀ l ∈ ob.asks, l.1 ≠ Price.nan ∧ ∀ o ∈ l.2, o.price = l.1

/-! ### Lemmas on prices -/

theorem Price.lt_iff (a b : Price) :
    a < b ↔ ∃ x y, a = Price.num x ∧ b = Price.num y ∧ x < y := by
  cases a <;> cases b <;> simp [LT.lt, Price.lt]

theorem Price.le_iff (a b : Price) :
    a ≤ b ↔ ∃ x y, a = Price.num x ∧ b = Price.num y ∧ x ≤ y := by
  cases a <;> cases b <;> simp [LE.le, Price.le]

theorem Price.le_of_lt {a b : Price} (h : a < b) : a ≤ b := by
  obtain ⟨x, y, rfl, rfl, hxy⟩ := (Price.lt_iff a b).mp h
  exact (Price.le_iff _ _).mpr ⟨x, y, rfl, rfl, Int.le_of_lt hxy⟩

theorem Price.not_le_of_lt {a b : Price} (h : a < b) : ¬ b ≤ a := by
  obtain ⟨x, y, rfl, rfl, hxy⟩ := (Price.lt_iff a b).mp h
  intro hle
  obtain ⟨x1, y1, h1, h2, h3⟩ := (Price.le_iff _ _).mp hle
  cases h1; cases h2
  omega

theorem Price.not_lt_of_le {a b : Price} (h : a ≤ b) : ¬ b < a :=
  fun hlt => Price.not_le_of_lt hlt h

theorem Price.lt_of_lt_of_le {a b c : Price} (h1 : a < b) (h2 : b ≤ c) : a < c := by
  obtain ⟨x, y, rfl, rfl, hxy⟩ := (Price.lt_iff a b).mp h1
  obtain ⟨y1, z, h3, rfl, hyz⟩ := (Price.le_iff _ c).mp h2
  cases h3
  exact (Price.lt_iff _ _).mpr ⟨x, z, rfl, rfl, by omega⟩

theorem Price.lt_of_le_of_lt {a b c : Price} (h1 : a ≤ b) (h2 : b < c) : a < c := by
  obtain ⟨x, y, rfl, rfl, hxy⟩ := (Price.le_iff a b).mp h1
  obtain ⟨y1, z, h3, rfl, hyz⟩ := (Price.lt_iff _ c).mp h2
  cases h3
  exact (Price.lt_iff _ _).mpr ⟨x, z, rfl, rfl, by omega⟩

theorem Price.lt_trans {a b c : Price} (h1 : a < b) (h2 : b < c) : a < c :=
  Price.lt_of_lt_of_le h1 (Price.le_of_lt h2)

theorem Price.lt_of_not_le {a b : Price} (ha : a ≠ Price.nan) (hb : b ≠ Price.nan)
    (h : ¬ a ≤ b) : b < a := by
  cases a with
  | nan => exact absurd rfl ha
  | num x =>
    cases b with
    | nan => exact absurd rfl hb
    | num y =>
      have : ¬ x ≤ y := fun hxy => h ((Price.le_iff _ _).mpr ⟨x, y, rfl, rfl, hxy⟩)
      exact (Price.lt_iff _ _).mpr ⟨y, x, rfl, rfl, by omega⟩

theorem Price.eq_of_not_lt {a b : Price} (ha : a ≠ Price.nan) (hb : b ≠ Price.nan)
    (h1 : ¬ a < b) (h2 : ¬ b < a) : a = b := by
  cases a with
  | nan => exact absurd rfl ha
  | num x =>
    cases b with
    | nan => exact absurd rfl hb
    | num y =>
      have e1 : ¬ x < y := fun hxy => h1 ((Price.lt_iff _ _).mpr ⟨x, y, rfl, rfl, hxy⟩)
      have e2 : ¬ y < x := fun hxy => h2 ((Price.lt_iff _ _).mpr ⟨y, x, rfl, rfl, hxy⟩)
      have : x = y := by omega
      rw [this]

theorem Price.ne_nan_of_lt_left {a b : Price} (h : a < b) : a ≠ Price.nan := by
  obtain ⟨x, y, rfl, rfl, _⟩ := (Price.lt_iff a b).mp h
  intro hc; cases hc

theorem Price.ne_nan_of_lt_right {a b : Price} (h : a < b) : b ≠ Price.nan := by
  obtain ⟨x, y, rfl, rfl, _⟩ := (Price.lt_iff a b).mp h
  intro hc; cases hc

theorem Price.ne_nan_of_le_left {a b : Price} (h : a ≤ b) : a ≠ Price.nan := by
  obtain ⟨x, y, rfl, rfl, _⟩ := (Price.le_iff a b).mp h
  intro hc; cases hc

theorem Price.ne_nan_of_le_right {a b : Price} (h : a ≤ b) : b ≠ Price.nan := by
  obtain ⟨x, y, rfl, rfl, _⟩ := (Price.le_iff a b).mp h
  intro hc; cases hc

theorem Price.min_of_lt {a b : Price} (h : a < b) : min a b = a := by
  show (if a ≤ b then a else b) = a
  rw [if_pos (Price.le_of_lt h)]

theorem Price.max_of_gt {a b : Price} (h : a > b) : max a b = a := by
  show (if a ≤ b then b else a) = a
  rw [if_neg (Price.not_le_of_lt h)]

/-! ### Lemmas on the containers -/

theorem levelOrders_cons (l : Price × OrderPointers) (rest : Levels) :
    levelOrders (l :: rest) = l.2 ++ levelOrders rest := rfl

theorem mem_levelOrders {o : Order} {levels : Levels} :
    o ∈ levelOrders levels ↔ ∃ l ∈ levels, o ∈ l.2 := by
  induction levels with
  | nil => simp [levelOrders]
  | cons l rest ih => simp [levelOrders, ih]

theorem indexContains_iff {orders : OrderIndex} {id : OrderID} :
    indexContains orders id = true ↔ ∃ e ∈ orders, e.1 = id := by
  simp [indexContains]

theorem lowestPrice_sorted {levels : Levels} (h : levels.Pairwise (fun a b => a.1 < b.1)) :
    lowestPrice levels = levels.head?.map Prod.fst := by
  induction levels with
  | nil => rfl
  | cons l rest ih =>
    rw [List.pairwise_cons] at h
    have ih1 := ih h.2
    cases rest with
    | nil => simp [lowestPrice]
    | cons r rest1 =>
      simp only [lowestPrice] at ih1 ⊢
      rw [ih1]
      simp only [List.head?_cons, Option.map_some']
      rw [Price.min_of_lt (h.1 r (List.mem_cons_self _ _))]

theorem highestPrice_sorted {levels : Levels} (h : levels.Pairwise (fun a b => a.1 > b.1)) :
    highestPrice levels = levels.head?.map Prod.fst := by
  induction levels with
  | nil => rfl
  | cons l rest ih =>
    rw [List.pairwise_cons] at h
    have ih1 := ih h.2
    cases rest with
    | nil => simp [highestPrice]
    | cons r rest1 =>
      simp only [highestPrice] at ih1 ⊢
      rw [ih1]
      simp only [List.head?_cons, Option.map_some']
      rw [Price.max_of_gt (h.1 r (List.mem_cons_self _ _))]

theorem CanMatch_buy_iff {ob : OrderBook} (ha : ob.asks.Pairwise (fun a b => a.1 < b.1))
    (p : Price) :
    CanMatch ob Side.Buy p = true ↔ ∃ a, lowestPrice ob.asks = some a ∧ a ≤ p := by
  rw [lowestPrice_sorted ha]
  cases hasks : ob.asks with
  | nil => simp [CanMatch, hasks]
  | cons l rest =>
    obtain ⟨best_ask, q⟩ := l
    simp [CanMatch, hasks]

theorem CanMatch_sell_iff {ob : OrderBook} (hb : ob.bids.Pairwise (fun a b => a.1 > b.1))
    (p : Price) :
    CanMatch ob Side.Sell p = true ↔ ∃ b, highestPrice ob.bids = some b ∧ p ≤ b := by
  rw [highestPrice_sorted hb]
  cases hbids : ob.bids with
  | nil => simp [CanMatch, hbids]
  | cons l rest =>
    obtain ⟨best_bid, q⟩ := l
    simp [CanMatch, hbids]

theorem CancelOrder_absent {ob : OrderBook} {id : OrderID}
    (h : indexContains ob.orders id = false) : CancelOrder ob id = .ok ob := by
  simp [CancelOrder, h]

theorem CancelOrder_present {ob : OrderBook} {id : OrderID}
    (h : indexContains ob.orders id = true) :
    CancelOrder ob id = .error .undefined_behaviour := by
  simp [CancelOrder, h]

/-! ### Lemmas on the engine -/

theorem min_fills (a b : Nat) : a - min a b = 0 ∨ b - min a b = 0 := by
  rcases Nat.le_total a b with h | h
  · left; rw [Nat.min_eq_left h]; omega
  · right; rw [Nat.min_eq_right h]; omega

theorem Fill_min_left (bid ask : Order) :
    bid.Fill (min bid.remaining_qty ask.remaining_qty) =
      .ok (bid.filledBy (min bid.remaining_qty ask.remaining_qty)) := by
  have h : ¬ min bid.remaining_qty ask.remaining_qty > bid.remaining_qty :=
    Nat.not_lt.mpr (Nat.min_le_left _ _)
  simp [Order.Fill, Order.filledBy, h]

theorem Fill_min_right (bid ask : Order) :
    ask.Fill (min bid.remaining_qty ask.remaining_qty) =
      .ok (ask.filledBy (min bid.remaining_qty ask.remaining_qty)) := by
  have h : ¬ min bid.remaining_qty ask.remaining_qty > ask.remaining_qty :=
    Nat.not_lt.mpr (Nat.min_le_right _ _)
  simp [Order.Fill, Order.filledBy, h]

theorem fills_one (bid ask : Order) :
    (bid.filledBy (min bid.remaining_qty ask.remaining_qty)).isFilled = true ∨
    (ask.filledBy (min bid.remaining_qty ask.remaining_qty)).isFilled = true := by
  simp only [Order.isFilled, Order.filledBy, beq_iff_eq]
  exact min_fills _ _

/-- No execution of the body of the inner loop completes: with two front orders, the matched
quantity is the smaller remaining quantity, so one of the two is filled, popped, and read
through its dangling reference; without them `front()` has nothing to return. -/
theorem matchStep_undefined (ob : OrderBook) :
    matchStep ob = .error .undefined_behaviour := by
  unfold matchStep
  split
  · rename_i bid_price bid bids_tail bids_rest ask_price ask asks_tail asks_rest _ _
    simp only [Fill_min_left, Fill_min_right]
    rcases fills_one bid ask with h | h
    · simp [h]
    · simp [h]
  · rfl

theorem frontOf_ne_none {levels : Levels} (h1 : levels ≠ [])
    (h2 : ∀ l ∈ levels, l.2 ≠ []) : frontOf levels ≠ none := by
  cases levels with
  | nil => exact absurd rfl h1
  | cons l rest =>
    obtain ⟨k, q⟩ := l
    cases q with
    | nil => exact absurd rfl (h2 (k, []) (List.mem_cons_self _ _))
    | cons o tail => simp [frontOf]

theorem matchLoop_exit {ob : OrderBook} (h : loopExits ob = true) (fuel : Nat) (ts : Trades) :
    matchLoop (fuel + 1) ob ts = .ok (ob, ts) := by
  unfold loopExits at h
  unfold matchLoop
  split
  · rfl
  · rfl
  · rename_i bid_price bids_ _ ask_price asks_ _ hb ha
    rw [hb, ha] at h
    simp only [decide_eq_true_eq] at h
    simp [h]

theorem matchLoop_crossed {ob : OrderBook} (h : loopExits ob = false)
    (hb : frontOf ob.bids ≠ none) (ha : frontOf ob.asks ≠ none) (fuel : Nat) (ts : Trades) :
    matchLoop (fuel + 1) ob ts = .error .undefined_behaviour := by
  unfold loopExits at h
  unfold matchLoop
  split
  · rename_i hb1; rw [hb1] at h; simp at h
  · rename_i hb1 ha1; rw [hb1, ha1] at h; simp at h
  · rename_i bid_price bids_ _ ask_price asks_ _ hb1 ha1
    rw [hb1, ha1] at h
    simp only [decide_eq_false_iff_not] at h
    have hbq : bids_.length ≠ 0 := by
      intro hl
      rw [hb1, List.length_eq_zero.mp hl] at hb
      exact hb rfl
    have haq : asks_.length ≠ 0 := by
      intro hl
      rw [ha1, List.length_eq_zero.mp hl] at ha
      exact ha rfl
    simp [h, hbq, haq, matchStep_undefined]

theorem matchLoop_spin {ob : OrderBook} (h : loopExits ob = false)
    (hq : frontOf ob.bids = none ∨ frontOf ob.asks = none) :
    ∀ (fuel : Nat) (ts : Trades), matchLoop fuel ob ts = .error .no_return := by
  intro fuel
  induction fuel with
  | zero => intro ts; rfl
  | succ fuel ih =>
    intro ts
    unfold loopExits at h
    unfold matchLoop
    split
    · rename_i hb1; rw [hb1] at h; simp at h
    · rename_i hb1 ha1; rw [hb1, ha1] at h; simp at h
    · rename_i bid_price bids_ _ ask_price asks_ _ hb1 ha1
      rw [hb1, ha1] at h
      simp only [decide_eq_false_iff_not] at h
      have hcond : ¬ (bids_.length ≠ 0 ∧ asks_.length ≠ 0) := by
        intro ⟨h1, h2⟩
        rcases hq with hq | hq
        · rw [hb1] at hq
          cases bids_ with
          | nil => exact h1 rfl
          | cons o tail => simp [frontOf] at hq
        · rw [ha1] at hq
          cases asks_ with
          | nil => exact h2 rfl
          | cons o tail => simp [frontOf] at hq
      rw [if_neg h, if_neg hcond]
      exact ih ts

/-- The three ways the loop can go, whatever the fuel: the exit tests hold and it returns the
state as it is, with no trade added; the top levels cross with two front orders and the first
execution of the body reads a destroyed node; the top levels cross and a top queue is empty,
and the loop never exits. -/
theorem matchLoop_cases (fuel : Nat) (ob : OrderBook) (ts : Trades) :
    (loopExits ob = true ∧ matchLoop (fuel + 1) ob ts = .ok (ob, ts)) ∨
    (loopExits ob = false ∧ frontOf ob.bids ≠ none ∧ frontOf ob.asks ≠ none ∧
      matchLoop (fuel + 1) ob ts = .error .undefined_behaviour) ∨
    (loopExits ob = false ∧ (frontOf ob.bids = none ∨ frontOf ob.asks = none) ∧
      matchLoop (fuel + 1) ob ts = .error .no_return) := by
  cases h : loopExits ob with
  | true => exact Or.inl ⟨rfl, matchLoop_exit h fuel ts⟩
  | false =>
    by_cases hb : frontOf ob.bids = none
    · exact Or.inr (Or.inr ⟨rfl, Or.inl hb, matchLoop_spin h (Or.inl hb) _ ts⟩)
    · by_cases ha : frontOf ob.asks = none
      · exact Or.inr (Or.inr ⟨rfl, Or.inr ha, matchLoop_spin h (Or.inr ha) _ ts⟩)
      · exact Or.inr (Or.inl ⟨rfl, hb, ha, matchLoop_crossed h hb ha fuel ts⟩)

/-- The result of the loop does not depend on the fuel, as soon as there is some. -/
theorem matchLoop_fuel (fuel : Nat) (ob : OrderBook) (ts : Trades) :
    matchLoop (fuel + 1) ob ts = matchLoop 1 ob ts := by
  rcases matchLoop_cases fuel ob ts with ⟨_, h⟩ | ⟨_, _, _, h⟩ | ⟨_, _, h⟩ <;>
  rcases matchLoop_cases 0 ob ts with ⟨e1, h1⟩ | ⟨e1, b1, a1, h1⟩ | ⟨e1, q1, h1⟩ <;>
  simp_all

theorem matchLoop_ok {fuel : Nat} {ob : OrderBook} {ts : Trades} {r : OrderBook × Trades}
    (h : matchLoop fuel ob ts = .ok r) : r = (ob, ts) ∧ loopExits ob = true := by
  cases fuel with
  | zero => simp [matchLoop] at h
  | succ fuel =>
    rcases matchLoop_cases fuel ob ts with ⟨e, h1⟩ | ⟨_, _, _, h1⟩ | ⟨_, _, h1⟩
    · rw [h1] at h
      cases h
      exact ⟨rfl, e⟩
    · rw [h1] at h; cases h
    · rw [h1] at h; cases h

theorem matchLoop_error {fuel : Nat} {ob : OrderBook} {ts : Trades} {e : Error}
    (h : matchLoop fuel ob ts = .error e) :
    e = Error.undefined_behaviour ∨ e = Error.no_return := by
  cases fuel with
  | zero =>
    simp only [matchLoop] at h
    cases h
    exact Or.inr rfl
  | succ fuel =>
    rcases matchLoop_cases fuel ob ts with ⟨_, h1⟩ | ⟨_, _, _, h1⟩ | ⟨_, _, h1⟩
    · rw [h1] at h; cases h
    · rw [h1] at h; cases h; exact Or.inl rfl
    · rw [h1] at h; cases h; exact Or.inr rfl

theorem cancelFrontFAK_ok {ob ob1 : OrderBook} {levels : Levels}
    (h : cancelFrontFAK ob levels = .ok ob1) : ob1 = ob := by
  unfold cancelFrontFAK at h
  split at h
  · cases h; rfl
  · cases h
  · split at h
    · unfold CancelOrder at h
      split at h
      · cases h; rfl
      · cases h
    · cases h; rfl

theorem cancelFrontFAK_error {ob : OrderBook} {levels : Levels} {e : Error}
    (h : cancelFrontFAK ob levels = .error e) : e = Error.undefined_behaviour := by
  unfold cancelFrontFAK at h
  split at h
  · cases h
  · cases h; rfl
  · split at h
    · unfold CancelOrder at h
      split at h
      · cases h
      · cases h; rfl
    · cases h

theorem cancelFrontFAK_gtc (ob : OrderBook) {levels : Levels}
    (hne : ∀ l ∈ levels, l.2 ≠ [])
    (hg : ∀ o ∈ levelOrders levels, o.order_type = OrderType.GoodTillCancel) :
    cancelFrontFAK ob levels = .ok ob := by
  cases levels with
  | nil => rfl
  | cons l rest =>
    obtain ⟨k, q⟩ := l
    cases q with
    | nil => exact absurd rfl (hne (k, []) (List.mem_cons_self _ _))
    | cons o tail =>
      have := hg o (by simp [levelOrders])
      simp [cancelFrontFAK, this]

theorem MatchOrders_ok {ob : OrderBook} {r : OrderBook × Trades}
    (h : MatchOrders ob = .ok r) : r = (ob, []) ∧ loopExits ob = true := by
  unfold MatchOrders at h
  split at h
  · cases h
  · rename_i ob1 trades hl
    obtain ⟨h1, h2⟩ := matchLoop_ok hl
    cases h1
    split at h
    · cases h
    · rename_i ob2 hc1
      have e2 := cancelFrontFAK_ok hc1
      subst e2
      split at h
      · cases h
      · rename_i ob3 hc2
        have e3 := cancelFrontFAK_ok hc2
        subst e3
        cases h
        exact ⟨rfl, h2⟩

theorem MatchOrders_error {ob : OrderBook} {e : Error}
    (h : MatchOrders ob = .error e) :
    e = Error.undefined_behaviour ∨ e = Error.no_return := by
  unfold MatchOrders at h
  split at h
  · rename_i e1 hl
    cases h
    exact matchLoop_error hl
  · split at h
    · rename_i e1 hc
      cases h
      exact Or.inl (cancelFrontFAK_error hc)
    · split at h
      · rename_i e1 hc
        cases h
        exact Or.inl (cancelFrontFAK_error hc)
      · cases h

theorem MatchOrders_crossed {ob : OrderBook} (h : loopExits ob = false)
    (hb : frontOf ob.bids ≠ none) (ha : frontOf ob.asks ≠ none) :
    MatchOrders ob = .error .undefined_behaviour := by
  unfold MatchOrders
  rw [matchLoop_crossed h hb ha]

theorem MatchOrders_exit {ob : OrderBook} (h : loopExits ob = true)
    (hb : ∀ l ∈ ob.bids, l.2 ≠ []) (ha : ∀ l ∈ ob.asks, l.2 ≠ [])
    (hg : ∀ o ∈ ob.resting, o.order_type = OrderType.GoodTillCancel) :
    MatchOrders ob = .ok (ob, []) := by
  unfold MatchOrders
  rw [matchLoop_exit h]
  simp only
  rw [cancelFrontFAK_gtc ob hb (fun o ho => hg o (List.mem_append_left _ ho))]
  simp only
  rw [cancelFrontFAK_gtc ob ha (fun o ho => hg o (List.mem_append_right _ ho))]

theorem AddOrder_eq {ob : OrderBook} {order : Order}
    (hfresh : indexContains ob.orders order.order_id = false)
    (hacc : order.order_type = OrderType.FillAndKill →
      CanMatch ob order.side order.price = true) :
    AddOrder ob order = MatchOrders (ob.inserted order) := by
  have h2 : ¬ (order.order_type = OrderType.FillAndKill ∧
      ¬ CanMatch ob order.side order.price = true) := fun ⟨h3, h4⟩ => h4 (hacc h3)
  unfold AddOrder OrderBook.inserted
  rw [hfresh]
  simp only [Bool.false_eq_true, if_false, h2]
  by_cases hs : order.side = Side.Buy <;> simp [hs]

/-- What a call of `AddOrder` that returns has done: nothing, or the insertion alone; it
never returns a trade. -/
theorem AddOrder_ok {ob : OrderBook} {order : Order} {r : OrderBook × Trades}
    (h : AddOrder ob order = .ok r) :
    r = (ob, []) ∨
    (r = (ob.inserted order, []) ∧ indexContains ob.orders order.order_id = false ∧
      (order.order_type = OrderType.FillAndKill → CanMatch ob order.side order.price = true) ∧
      loopExits (ob.inserted order) = true) := by
  by_cases hfresh : indexContains ob.orders order.order_id = true
  · left
    simp only [AddOrder, hfresh, if_true] at h
    cases h; rfl
  · have hf : indexContains ob.orders order.order_id = false := by simpa using hfresh
    by_cases hrej : order.order_type = OrderType.FillAndKill ∧
        ¬ CanMatch ob order.side order.price = true
    · left
      simp only [AddOrder, hf, Bool.false_eq_true, if_false, hrej, not_false_eq_true,
        and_self, if_true] at h
      cases h; rfl
    · right
      have hacc : order.order_type = OrderType.FillAndKill →
          CanMatch ob order.side order.price = true := by
        intro hk
        by_contra hc
        exact hrej ⟨hk, hc⟩
      rw [AddOrder_eq hf hacc] at h
      obtain ⟨h1, h2⟩ := MatchOrders_ok h
      exact ⟨h1, hf, hacc, h2⟩

theorem AddOrder_error {ob : OrderBook} {order : Order} {e : Error}
    (h : AddOrder ob order = .error e) :
    e = Error.undefined_behaviour ∨ e = Error.no_return := by
  by_cases hfresh : indexContains ob.orders order.order_id = true
  · simp only [AddOrder, hfresh, if_true] at h
    cases h
  · have hf : indexContains ob.orders order.order_id = false := by simpa using hfresh
    by_cases hrej : order.order_type = OrderType.FillAndKill ∧
        ¬ CanMatch ob order.side order.price = true
    · simp only [AddOrder, hf, Bool.false_eq_true, if_false, hrej, not_false_eq_true,
        and_self, if_true] at h
      cases h
    · have hacc : order.order_type = OrderType.FillAndKill →
          CanMatch ob order.side order.price = true := by
        intro hk
        by_contra hc
        exact hrej ⟨hk, hc⟩
      rw [AddOrder_eq hf hacc] at h
      exact MatchOrders_error h

theorem CancelOrder_ok {ob ob1 : OrderBook} {id : OrderID}
    (h : CancelOrder ob id = .ok ob1) : ob1 = ob ∧ indexContains ob.orders id = false := by
  unfold CancelOrder at h
  split at h
  · rename_i hc
    cases h
    exact ⟨rfl, by simpa using hc⟩
  · cases h

theorem Modify_present {ob : OrderBook} {m : OrderModify}
    (h : indexContains ob.orders m.order_id = true) :
    Modify ob m = .error .undefined_behaviour := by
  simp [Modify, h, CancelOrder]

theorem Modify_ok {ob : OrderBook} {m : OrderModify} {r : OrderBook × Trades}
    (h : Modify ob m = .ok r) : r = (ob, []) := by
  by_cases hc : indexContains ob.orders m.order_id = true
  · rw [Modify_present hc] at h
    cases h
  · have hf : indexContains ob.orders m.order_id = false := by simpa using hc
    simp only [Modify, hf, Bool.not_false, if_true] at h
    cases h
    rfl

/-! ### Lemmas on the insertion -/

theorem mem_levelPush {before : Price → Price → Bool} {p : Price} {o : Order} {levels : Levels}
    {l : Price × OrderPointers} (h : l ∈ levelPush before p o levels) :
    l ∈ levels ∨ l = (p, [o]) ∨
    ∃ k q, (k, q) ∈ levels ∧ before k p = false ∧ before p k = false ∧ l = (k, q ++ [o]) := by
  induction levels with
  | nil =>
    simp only [levelPush, List.mem_singleton] at h
    exact Or.inr (Or.inl h)
  | cons l0 rest ih =>
    obtain ⟨k, q⟩ := l0
    simp only [levelPush] at h
    split at h
    · rcases List.mem_cons.mp h with h | h
      · exact Or.inl (h ▸ List.mem_cons_self _ _)
      · rcases ih h with h | h | ⟨k1, q1, h1, h2, h3, h4⟩
        · exact Or.inl (List.mem_cons_of_mem _ h)
        · exact Or.inr (Or.inl h)
        · exact Or.inr (Or.inr ⟨k1, q1, List.mem_cons_of_mem _ h1, h2, h3, h4⟩)
    · rename_i hkp
      split at h
      · rcases List.mem_cons.mp h with h | h
        · exact Or.inr (Or.inl h)
        · exact Or.inl h
      · rename_i hpk
        rcases List.mem_cons.mp h with h | h
        · exact Or.inr (Or.inr ⟨k, q, List.mem_cons_self _ _, by simpa using hkp,
            by simpa using hpk, h⟩)
        · exact Or.inl (List.mem_cons_of_mem _ h)

theorem levelPush_key {before : Price → Price → Bool} {p : Price} {o : Order} {levels : Levels}
    {l : Price × OrderPointers} (h : l ∈ levelPush before p o levels) :
    l.1 = p ∨ ∃ l0 ∈ levels, l.1 = l0.1 := by
  rcases mem_levelPush h with h | h | ⟨k, q, h1, _, _, h⟩
  · exact Or.inr ⟨l, h, rfl⟩
  · exact Or.inl (by rw [h])
  · exact Or.inr ⟨(k, q), h1, by rw [h]⟩

theorem levelPush_perm (before : Price → Price → Bool) (p : Price) (o : Order)
    (levels : Levels) :
    (levelOrders (levelPush before p o levels)).Perm (o :: levelOrders levels) := by
  induction levels with
  | nil => simp [levelPush, levelOrders]
  | cons l0 rest ih =>
    obtain ⟨k, q⟩ := l0
    simp only [levelPush]
    split
    · simp only [levelOrders]
      exact (List.Perm.append_left q ih).trans List.perm_middle
    · split
      · simp [levelOrders]
      · simp only [levelOrders, List.append_assoc, List.singleton_append]
        exact (List.perm_middle).trans (List.Perm.refl _)

theorem levelPush_nonempty {before : Price → Price → Bool} {p : Price} {o : Order}
    {levels : Levels} (h : ∀ l ∈ levels, l.2 ≠ []) :
    ∀ l ∈ levelPush before p o levels, l.2 ≠ [] := by
  intro l hl
  rcases mem_levelPush hl with h1 | h1 | ⟨k, q, _, _, _, h1⟩
  · exact h l h1
  · rw [h1]; simp
  · rw [h1]; simp

/-- The top level after the lookup-and-append: its key is not ordered after the wanted price,
and it is either the wanted price itself or the key of the old top level. -/
theorem levelPush_head {before : Price → Price → Bool}
    (hasym : ∀ a b, before a b = true → before b a = false)
    (p : Price) (o : Order) (levels : Levels) :
    ∃ k q rest, levelPush before p o levels = (k, q) :: rest ∧ before p k = false ∧
      (k = p ∨ ∃ q0 rest0, levels = (k, q0) :: rest0) := by
  have hirr : before p p = false := by
    cases hpp : before p p with
    | false => rfl
    | true => rw [hasym p p hpp] at hpp; cases hpp
  cases levels with
  | nil => exact ⟨p, [o], [], rfl, hirr, Or.inl rfl⟩
  | cons l0 rest0 =>
    obtain ⟨k0, q0⟩ := l0
    simp only [levelPush]
    split
    · rename_i hkp
      exact ⟨k0, q0, _, rfl, hasym _ _ hkp, Or.inr ⟨q0, rest0, rfl⟩⟩
    · split
      · exact ⟨p, [o], _, rfl, hirr, Or.inl rfl⟩
      · rename_i hpk
        exact ⟨k0, q0 ++ [o], _, rfl, by simpa using hpk, Or.inr ⟨q0, rest0, rfl⟩⟩

theorem bidBefore_asymm (a b : Price) (h : bidBefore a b = true) : bidBefore b a = false := by
  simp only [bidBefore, decide_eq_true_eq, decide_eq_false_iff_not] at h ⊢
  exact Price.not_lt_of_le (Price.le_of_lt h)

theorem askBefore_asymm (a b : Price) (h : askBefore a b = true) : askBefore b a = false := by
  simp only [askBefore, decide_eq_true_eq, decide_eq_false_iff_not] at h ⊢
  exact Price.not_lt_of_le (Price.le_of_lt h)

theorem levelPush_sorted {R : Price → Price → Prop} {before : Price → Price → Bool}
    (hb : ∀ a b, before a b = true ↔ R a b) (htrans : ∀ a b c, R a b → R b c → R a c)
    (p : Price) (o : Order) {levels : Levels}
    (h : levels.Pairwise (fun a b => R a.1 b.1)) :
    (levelPush before p o levels).Pairwise (fun a b => R a.1 b.1) := by
  induction levels with
  | nil => simp [levelPush]
  | cons l0 rest ih =>
    obtain ⟨k, q⟩ := l0
    rw [List.pairwise_cons] at h
    simp only [levelPush]
    split
    · rename_i hkp
      rw [List.pairwise_cons]
      refine ⟨?_, ih h.2⟩
      intro l hl
      rcases levelPush_key hl with h1 | ⟨l1, h0, h1⟩
      · rw [h1]; exact (hb k p).mp hkp
      · rw [h1]; exact h.1 l1 h0
    · split
      · rename_i hpk
        have hR : R p k := (hb p k).mp hpk
        rw [List.pairwise_cons, List.pairwise_cons]
        refine ⟨?_, h⟩
        intro l hl
        rcases List.mem_cons.mp hl with hl | hl
        · subst hl; exact hR
        · exact htrans _ _ _ hR (h.1 l hl)
      · rw [List.pairwise_cons]
        exact h

theorem levelPush_sorted_bids (p : Price) (o : Order) {levels : Levels}
    (h : levels.Pairwise (fun a b => a.1 > b.1)) :
    (levelPush bidBefore p o levels).Pairwise (fun a b => a.1 > b.1) := by
  apply levelPush_sorted (R := fun a b => a > b) _ _ p o h
  · intro a b; simp [bidBefore]
  · intro a b c h1 h2; exact Price.lt_trans h2 h1

theorem levelPush_sorted_asks (p : Price) (o : Order) {levels : Levels}
    (h : levels.Pairwise (fun a b => a.1 < b.1)) :
    (levelPush askBefore p o levels).Pairwise (fun a b => a.1 < b.1) := by
  apply levelPush_sorted (R := fun a b => a < b) _ _ p o h
  · intro a b; simp [askBefore]
  · intro a b c h1 h2; exact Price.lt_trans h1 h2

theorem levelPush_price {before : Price → Price → Bool}
    (hlt : ∀ a b, before a b = false → before b a = false → a ≠ Price.nan →
      b ≠ Price.nan → a = b)
    {p : Price} {o : Order} (hp : p ≠ Price.nan) (ho : o.price = p) {levels : Levels}
    (h : ∀ l ∈ levels, l.1 ≠ Price.nan ∧ ∀ x ∈ l.2, x.price = l.1) :
    ∀ l ∈ levelPush before p o levels, l.1 ≠ Price.nan ∧ ∀ x ∈ l.2, x.price = l.1 := by
  intro l hl
  rcases mem_levelPush hl with h1 | h1 | ⟨k, q, h1, h2, h3, h4⟩
  · exact h l h1
  · rw [h1]
    refine ⟨hp, ?_⟩
    intro x hx
    simp only [List.mem_singleton] at hx
    rw [hx, ho]
  · rw [h4]
    have hk := h (k, q) h1
    refine ⟨hk.1, ?_⟩
    intro x hx
    rcases List.mem_append.mp hx with hx | hx
    · exact hk.2 x hx
    · simp only [List.mem_singleton] at hx
      rw [hx, ho]
      exact (hlt k p h2 h3 hk.1 hp).symm

theorem bidBefore_equiv (a b : Price) (h1 : bidBefore a b = false) (h2 : bidBefore b a = false)
    (ha : a ≠ Price.nan) (hb : b ≠ Price.nan) : a = b := by
  simp only [bidBefore, decide_eq_false_iff_not] at h1 h2
  exact Price.eq_of_not_lt ha hb h2 h1

theorem askBefore_equiv (a b : Price) (h1 : askBefore a b = false) (h2 : askBefore b a = false)
    (ha : a ≠ Price.nan) (hb : b ≠ Price.nan) : a = b := by
  simp only [askBefore, decide_eq_false_iff_not] at h1 h2
  exact Price.eq_of_not_lt ha hb h1 h2

theorem resting_inserted_perm (ob : OrderBook) (order : Order) :
    (ob.inserted order).resting.Perm (order :: ob.resting) := by
  unfold OrderBook.inserted OrderBook.resting
  by_cases hs : order.side = Side.Buy
  · simp only [hs, if_true]
    exact (levelPush_perm _ _ _ _).append_right _
  · simp only [hs, if_false]
    exact ((levelPush_perm _ _ _ _).append_left _).trans List.perm_middle

theorem indexContains_insert {orders : OrderIndex} {id : OrderID} (e : OrderEntry)
    (hfresh : indexContains orders id = false) (id1 : OrderID) :
    indexContains (indexInsert orders id e) id1 = true ↔
      indexContains orders id1 = true ∨ id1 = id := by
  simp only [indexInsert, hfresh, Bool.false_eq_true, if_false]
  simp only [indexContains, List.any_append, List.any_cons, List.any_nil, Bool.or_false,
    Bool.or_eq_true, beq_iff_eq]
  constructor
  · rintro (h | h)
    · exact Or.inl h
    · exact Or.inr h.symm
  · rintro (h | h)
    · exact Or.inl h
    · exact Or.inr h.symm

theorem fresh_not_resting {ob : OrderBook} (h : BookInv ob) {id : OrderID}
    (hfresh : indexContains ob.orders id = false) : id ∉ ob.resting.map Order.order_id := by
  intro hm
  rw [(h.index_iff id).mpr hm] at hfresh
  cases hfresh

/-- A call with something to trade with leaves the top levels crossed after the insertion. -/
theorem canMatch_crosses (ob : OrderBook) (order : Order)
    (hcan : CanMatch ob order.side order.price = true) :
    loopExits (ob.inserted order) = false := by
  cases hs : order.side with
  | Buy =>
    rw [hs] at hcan
    cases hasks : ob.asks with
    | nil => simp [CanMatch, hasks] at hcan
    | cons a0 arest =>
      obtain ⟨best_ask, aq⟩ := a0
      have hle : best_ask ≤ order.price := by simpa [CanMatch, hasks] using hcan
      obtain ⟨k, q, rest, h1, h2, _⟩ :=
        levelPush_head bidBefore_asymm order.price order ob.bids
      have hk : ¬ k < order.price := by simpa [bidBefore] using h2
      simp only [loopExits, OrderBook.inserted, hs, if_true, h1, hasks,
        decide_eq_false_iff_not]
      intro hlt
      exact hk (Price.lt_of_lt_of_le hlt hle)
  | Sell =>
    rw [hs] at hcan
    cases hbids : ob.bids with
    | nil => simp [CanMatch, hbids] at hcan
    | cons b0 brest =>
      obtain ⟨best_bid, bq⟩ := b0
      have hle : order.price ≤ best_bid := by simpa [CanMatch, hbids] using hcan
      obtain ⟨k, q, rest, h1, h2, _⟩ :=
        levelPush_head askBefore_asymm order.price order ob.asks
      have hk : ¬ order.price < k := by simpa [askBefore] using h2
      simp only [loopExits, OrderBook.inserted, hs, reduceCtorEq, if_false, h1, hbids,
        decide_eq_false_iff_not]
      intro hlt
      exact hk (Price.lt_of_le_of_lt hle hlt)

theorem inserted_nonempty {ob : OrderBook} (order : Order)
    (hb : ∀ l ∈ ob.bids, l.2 ≠ []) (ha : ∀ l ∈ ob.asks, l.2 ≠ []) :
    (∀ l ∈ (ob.inserted order).bids, l.2 ≠ []) ∧ (∀ l ∈ (ob.inserted order).asks, l.2 ≠ []) := by
  unfold OrderBook.inserted
  by_cases hs : order.side = Side.Buy
  · simp only [hs, if_true]
    exact ⟨levelPush_nonempty hb, ha⟩
  · simp only [hs, if_false]
    exact ⟨hb, levelPush_nonempty ha⟩

/-- A fresh, accepted order whose insertion leaves the top levels crossed: the loop starts
and its first step reads a destroyed node. -/
theorem AddOrder_crossed {ob : OrderBook} {order : Order}
    (hb : ∀ l ∈ ob.bids, l.2 ≠ []) (ha : ∀ l ∈ ob.asks, l.2 ≠ [])
    (hfresh : indexContains ob.orders order.order_id = false)
    (hacc : order.order_type = OrderType.FillAndKill →
      CanMatch ob order.side order.price = true)
    (hx : loopExits (ob.inserted order) = false) :
    AddOrder ob order = .error .undefined_behaviour := by
  rw [AddOrder_eq hfresh hacc]
  have hne := inserted_nonempty order hb ha
  have hbn : (ob.inserted order).bids ≠ [] := by
    intro h; simp [loopExits, h] at hx
  have han : (ob.inserted order).asks ≠ [] := by
    intro h
    cases hbb : (ob.inserted order).bids with
    | nil => exact hbn hbb
    | cons b rest => simp [loopExits, h, hbb] at hx
  exact MatchOrders_crossed hx (frontOf_ne_none hbn hne.1) (frontOf_ne_none han hne.2)

theorem inserted_inv {ob : OrderBook} {order : Order} (h : BookInv ob)
    (hfresh : indexContains ob.orders order.order_id = false)
    (hg : order.order_type = OrderType.GoodTillCancel)
    (hx : loopExits (ob.inserted order) = true) : BookInv (ob.inserted order) := by
  have hperm := resting_inserted_perm ob order
  have hne := inserted_nonempty order h.bids_nonempty h.asks_nonempty
  refine ⟨hne.1, hne.2, ?_, ?_, ?_, ?_, ?_, hx⟩
  · intro o ho
    unfold OrderBook.inserted at ho
    by_cases hs : order.side = Side.Buy
    · simp only [hs, if_true] at ho
      rcases List.mem_cons.mp ((levelPush_perm _ _ _ _).mem_iff.mp ho) with h1 | h1
      · rw [h1]; exact hs
      · exact h.bids_side o h1
    · simp only [hs, if_false] at ho
      exact h.bids_side o ho
  · intro o ho
    unfold OrderBook.inserted at ho
    by_cases hs : order.side = Side.Buy
    · simp only [hs, if_true] at ho
      exact h.asks_side o ho
    · simp only [hs, if_false] at ho
      rcases List.mem_cons.mp ((levelPush_perm _ _ _ _).mem_iff.mp ho) with h1 | h1
      · rw [h1]
        cases hside : order.side with
        | Buy => exact absurd hside hs
        | Sell => rfl
      · exact h.asks_side o h1
  · have := (hperm.map Order.order_id).nodup_iff.mpr
      (List.nodup_cons.mpr ⟨fresh_not_resting h hfresh, h.ids_nodup⟩)
    exact this
  · intro id
    have hi : (ob.inserted order).orders =
        indexInsert ob.orders order.order_id ⟨order.order_type, order.side, order.price⟩ := rfl
    rw [hi, indexContains_insert _ hfresh, (hperm.map Order.order_id).mem_iff, h.index_iff id]
    simp only [List.map_cons, List.mem_cons]
    constructor
    · rintro (h1 | h1)
      · exact Or.inr h1
      · exact Or.inl h1
    · rintro (h1 | h1)
      · exact Or.inr h1
      · exact Or.inl h1
  · intro o ho
    rcases List.mem_cons.mp (hperm.mem_iff.mp ho) with h1 | h1
    · rw [h1]; exact hg
    · exact h.no_fak o h1

theorem inserted_numInv {ob : OrderBook} {order : Order} (h : NumInv ob)
    (hp : order.price ≠ Price.nan) : NumInv (ob.inserted order) := by
  unfold OrderBook.inserted
  by_cases hs : order.side = Side.Buy
  · simp only [hs, if_true]
    exact ⟨levelPush_sorted_bids _ _ h.bids_sorted, h.asks_sorted,
      levelPush_price bidBefore_equiv hp rfl h.bids_price,
      h.asks_price⟩
  · simp only [hs, if_false]
    exact ⟨h.bids_sorted, levelPush_sorted_asks _ _ h.asks_sorted, h.bids_price,
      levelPush_price askBefore_equiv hp rfl h.asks_price⟩

theorem empty_inv : BookInv OrderBook.empty := by
  refine ⟨?_, ?_, ?_, ?_, ?_, ?_, ?_, rfl⟩ <;>
    simp [OrderBook.empty, OrderBook.resting, levelOrders, indexContains]

theorem empty_numInv : NumInv OrderBook.empty := by
  refine ⟨?_, ?_, ?_, ?_⟩ <;> simp [OrderBook.empty]

/-- A call of `AddOrder` that returns has either changed nothing or inserted a
`GoodTillCancel` order that nothing crosses. -/
theorem AddOrder_ok_inv {ob : OrderBook} {order : Order} {r : OrderBook × Trades}
    (h : AddOrder ob order = .ok r) :
    r = (ob, []) ∨
    (r = (ob.inserted order, []) ∧ indexContains ob.orders order.order_id = false ∧
      order.order_type = OrderType.GoodTillCancel ∧ loopExits (ob.inserted order) = true) := by
  rcases AddOrder_ok h with h1 | ⟨h1, h2, h3, h4⟩
  · exact Or.inl h1
  · refine Or.inr ⟨h1, h2, ?_, h4⟩
    cases ht : order.order_type with
    | GoodTillCancel => rfl
    | FillAndKill =>
      rw [canMatch_crosses ob order (h3 ht)] at h4
      cases h4

theorem reachable_inv {ob : OrderBook} (h : Reachable ob) : BookInv ob := by
  induction h with
  | empty => exact empty_inv
  | add ob order r _ hr ih =>
    rcases AddOrder_ok_inv hr with h1 | ⟨h1, h2, h3, h4⟩
    · rw [h1]; exact ih
    · rw [h1]; exact inserted_inv ih h2 h3 h4
  | cancel ob id ob1 _ hr ih =>
    rw [(CancelOrder_ok hr).1]; exact ih
  | modify ob m r _ hr ih =>
    rw [Modify_ok hr]; exact ih

theorem reachableNum_reachable {ob : OrderBook} (h : ReachableNum ob) : Reachable ob := by
  induction h with
  | empty => exact Reachable.empty
  | add ob order r _ _ hr ih => exact Reachable.add ob order r ih hr
  | cancel ob id ob1 _ hr ih => exact Reachable.cancel ob id ob1 ih hr
  | modify ob m r _ _ hr ih => exact Reachable.modify ob m r ih hr

theorem reachablePos_reachable {ob : OrderBook} (h : ReachablePos ob) : Reachable ob := by
  induction h with
  | empty => exact Reachable.empty
  | add ob order r _ _ hr ih => exact Reachable.add ob order r ih hr
  | cancel ob id ob1 _ hr ih => exact Reachable.cancel ob id ob1 ih hr
  | modify ob m r _ _ hr ih => exact Reachable.modify ob m r ih hr

theorem reachableNum_inv {ob : OrderBook} (h : ReachableNum ob) : NumInv ob := by
  induction h with
  | empty => exact empty_numInv
  | add ob order r _ hp hr ih =>
    rcases AddOrder_ok_inv hr with h1 | ⟨h1, _, _, _⟩
    · rw [h1]; exact ih
    · rw [h1]; exact inserted_numInv ih hp
  | cancel ob id ob1 _ hr ih =>
    rw [(CancelOrder_ok hr).1]; exact ih
  | modify ob m r _ _ hr ih =>
    rw [Modify_ok hr]; exact ih

theorem reachablePos_allPositive {ob : OrderBook} (h : ReachablePos ob) : AllPositive ob := by
  induction h with
  | empty => intro o ho; simp [OrderBook.empty, OrderBook.resting, levelOrders] at ho
  | add ob order r _ hq hr ih =>
    rcases AddOrder_ok_inv hr with h1 | ⟨h1, _, _, _⟩
    · rw [h1]; exact ih
    · rw [h1]
      intro o ho
      rcases List.mem_cons.mp ((resting_inserted_perm ob order).mem_iff.mp ho) with h2 | h2
      · rw [h2]; exact hq
      · exact ih o h2
  | cancel ob id ob1 _ hr ih =>
    rw [(CancelOrder_ok hr).1]; exact ih
  | modify ob m r _ _ hr ih =>
    rw [Modify_ok hr]; exact ih

/-- A fresh `GoodTillCancel` order whose insertion leaves the exit tests of the loop true:
the call returns the state with the order inserted, and no trade. -/
theorem AddOrder_rest {ob : OrderBook} (h : BookInv ob) (order : Order)
    (hfresh : indexContains ob.orders order.order_id = false)
    (hg : order.order_type = OrderType.GoodTillCancel)
    (hx : loopExits (ob.inserted order) = true) :
    AddOrder ob order = .ok (ob.inserted order, []) := by
  have hacc : order.order_type = OrderType.FillAndKill →
      CanMatch ob order.side order.price = true := by
    intro hk; rw [hg] at hk; cases hk
  have hinv := inserted_inv h hfresh hg hx
  rw [AddOrder_eq hfresh hacc]
  exact MatchOrders_exit hx hinv.bids_nonempty hinv.asks_nonempty hinv.no_fak

/-- With keys that are numbers, a price that cannot match leaves the exit tests of the loop
true after the insertion. -/
theorem exits_of_cannot_match {ob : OrderBook} (hex : loopExits ob = true)
    (hb : ∀ l ∈ ob.bids, l.1 ≠ Price.nan) (ha : ∀ l ∈ ob.asks, l.1 ≠ Price.nan)
    (order : Order) (hp : order.price ≠ Price.nan)
    (hcan : CanMatch ob order.side order.price = false) :
    loopExits (ob.inserted order) = true := by
  cases hs : order.side with
  | Buy =>
    rw [hs] at hcan
    cases hasks : ob.asks with
    | nil =>
      simp only [loopExits, OrderBook.inserted, hs, if_true, hasks]
      split <;> first | rfl | (rename_i hc; cases hc)
    | cons a0 arest =>
      obtain ⟨a, aq⟩ := a0
      have hna : a ≠ Price.nan := ha (a, aq) (by rw [hasks]; exact List.mem_cons_self _ _)
      have hc : ¬ a ≤ order.price := by simpa [CanMatch, hasks] using hcan
      have hlt : order.price < a := Price.lt_of_not_le hna hp hc
      obtain ⟨k, q, rest, h1, _, h3⟩ :=
        levelPush_head bidBefore_asymm order.price order ob.bids
      simp only [loopExits, OrderBook.inserted, hs, if_true, h1, hasks, decide_eq_true_eq]
      rcases h3 with h3 | ⟨q0, rest0, h3⟩
      · rw [h3]; exact hlt
      · simpa [loopExits, h3, hasks] using hex
  | Sell =>
    rw [hs] at hcan
    cases hbids : ob.bids with
    | nil =>
      simp [loopExits, OrderBook.inserted, hs, hbids]
    | cons b0 brest =>
      obtain ⟨b, bq⟩ := b0
      have hnb : b ≠ Price.nan := hb (b, bq) (by rw [hbids]; exact List.mem_cons_self _ _)
      have hc : ¬ order.price ≤ b := by simpa [CanMatch, hbids] using hcan
      have hlt : b < order.price := Price.lt_of_not_le hp hnb hc
      obtain ⟨k, q, rest, h1, _, h3⟩ :=
        levelPush_head askBefore_asymm order.price order ob.asks
      simp only [loopExits, OrderBook.inserted, hs, reduceCtorEq, if_false, h1, hbids,
        decide_eq_true_eq]
      rcases h3 with h3 | ⟨q0, rest0, h3⟩
      · rw [h3]; exact hlt
      · simpa [loopExits, h3, hbids] using hex

/-- In a state built without `NaN`, a price that no resting order of the other side crosses
cannot match. -/
theorem cannot_match_of_none_crosses {ob : OrderBook} (h : BookInv ob) (hn : NumInv ob)
    (side : Side) (p : Price)
    (hno : ∀ o ∈ oppositeOrders ob side, crosses side p o = false) :
    CanMatch ob side p = false := by
  cases side with
  | Buy =>
    cases hasks : ob.asks with
    | nil => simp [CanMatch, hasks]
    | cons a0 arest =>
      obtain ⟨a, aq⟩ := a0
      have hmem : (a, aq) ∈ ob.asks := by rw [hasks]; exact List.mem_cons_self _ _
      cases aq with
      | nil => exact absurd rfl (h.asks_nonempty _ hmem)
      | cons ao atail =>
        have hpa : ao.price = a := (hn.asks_price _ hmem).2 ao (List.mem_cons_self _ _)
        have hc := hno ao (by simp [oppositeOrders, hasks, levelOrders])
        simp only [crosses, hpa, decide_eq_false_iff_not] at hc
        simpa [CanMatch, hasks] using hc
  | Sell =>
    cases hbids : ob.bids with
    | nil => simp [CanMatch, hbids]
    | cons b0 brest =>
      obtain ⟨b, bq⟩ := b0
      have hmem : (b, bq) ∈ ob.bids := by rw [hbids]; exact List.mem_cons_self _ _
      cases bq with
      | nil => exact absurd rfl (h.bids_nonempty _ hmem)
      | cons bo btail =>
        have hpb : bo.price = b := (hn.bids_price _ hmem).2 bo (List.mem_cons_self _ _)
        have hc := hno bo (by simp [oppositeOrders, hbids, levelOrders])
        simp only [crosses, hpb, decide_eq_false_iff_not] at hc
        simpa [CanMatch, hbids] using hc

/-- In a state built without `NaN`, a price that no resting order of the other side crosses
leaves the exit tests of the loop true after the insertion. -/
theorem rest_exits {ob : OrderBook} (h : BookInv ob) (hn : NumInv ob) (order : Order)
    (hp : order.price ≠ Price.nan)
    (hno : ∀ o ∈ oppositeOrders ob order.side, crosses order.side order.price o = false) :
    loopExits (ob.inserted order) = true :=
  exits_of_cannot_match h.exits (fun l hl => (hn.bids_price l hl).1)
    (fun l hl => (hn.asks_price l hl).1) order hp
    (cannot_match_of_none_crosses h hn order.side order.price hno)

/-! ### Lemmas for the claims -/

theorem foldl_wrap (M : Nat) (l : OrderPointers) : ∀ a : Nat,
    l.foldl (fun running_sum order => (running_sum + order.remaining_qty) % M) (a % M) =
      (a + (l.map Order.remaining_qty).sum) % M := by
  induction l with
  | nil => intro a; simp
  | cons o rest ih =>
    intro a
    simp only [List.foldl_cons, List.map_cons, List.sum_cons]
    rw [ih (a % M + o.remaining_qty)]
    rw [Nat.add_assoc, Nat.mod_add_mod]

theorem CreateLevelInfos_eq (price : Price) (orders_ : OrderPointers) :
    CreateLevelInfos price orders_ =
      ⟨price, (orders_.map Order.remaining_qty).sum % 2 ^ 32⟩ := by
  have := foldl_wrap (2 ^ 32) orders_ 0
  simp only [Nat.zero_mod, Nat.zero_add] at this
  simp only [CreateLevelInfos, this]

theorem bookWrap_reachable : Reachable bookWrap :=
  Reachable.add _ (Order.make .GoodTillCancel 2 .Buy 100 2147483648) (bookWrap, [])
    (Reachable.add OrderBook.empty (Order.make .GoodTillCancel 1 .Buy 100 2147483648)
      (⟨[(100, [Order.make .GoodTillCancel 1 .Buy 100 2147483648])], [],
        [(1, ⟨.GoodTillCancel, .Buy, 100⟩)]⟩, []) Reachable.empty (by decide))
    (by decide)

theorem bookOneBid_reachable : Reachable bookOneBid :=
  Reachable.add OrderBook.empty (Order.make .GoodTillCancel 1 .Buy 100 10) (bookOneBid, [])
    Reachable.empty (by decide)

theorem bookOneAsk_reachable : Reachable bookOneAsk :=
  Reachable.add OrderBook.empty (Order.make .GoodTillCancel 1 .Sell 100 5) (bookOneAsk, [])
    Reachable.empty (by decide)

theorem bookTwoAsks_reachable : Reachable bookTwoAsks :=
  Reachable.add bookOneAsk (Order.make .GoodTillCancel 2 .Sell 100 5) (bookTwoAsks, [])
    bookOneAsk_reachable (by decide)

theorem bookNan_reachable : Reachable bookNan :=
  Reachable.add bookOneBid (Order.make .GoodTillCancel 2 .Buy Price.nan 5) (bookNan, [])
    bookOneBid_reachable (by decide)

theorem bookZero_reachable : Reachable bookZero :=
  Reachable.add OrderBook.empty (Order.make .GoodTillCancel 1 .Buy 100 0) (bookZero, [])
    Reachable.empty (by decide)

theorem bookBothSides_reachableNum : ReachableNum bookBothSides :=
  ReachableNum.add _ (Order.make .GoodTillCancel 2 .Sell 101 5) (bookBothSides, [])
    (ReachableNum.add OrderBook.empty (Order.make .GoodTillCancel 1 .Buy 100 10)
      (bookOneBid, []) ReachableNum.empty (by decide) (by decide))
    (by decide) (by decide)

theorem bookBothSides_reachablePos : ReachablePos bookBothSides :=
  ReachablePos.add _ (Order.make .GoodTillCancel 2 .Sell 101 5) (bookBothSides, [])
    (ReachablePos.add OrderBook.empty (Order.make .GoodTillCancel 1 .Buy 100 10)
      (bookOneBid, []) ReachablePos.empty (by decide) (by decide))
    (by decide) (by decide)

theorem filledBy_zero (o : Order) : o.filledBy 0 = o := by
  cases o; rfl

theorem crossingTotal_eq_zero {side : Side} {p : Price} {orders : List Order}
    (h : ∀ o ∈ orders, crosses side p o = false) : crossingTotal side p orders = 0 := by
  have : orders.filter (crosses side p) = [] := by
    apply List.filter_eq_nil_iff.mpr
    intro o ho
    rw [h o ho]
    simp
  simp [crossingTotal, this]

/-! ### The claims -/

/-- C1, the claim as stated fails: after `AddOrder(GoodTillCancel, 1, Buy, 100, 10)` and
`AddOrder(GoodTillCancel, 2, Buy, NaN, 5)`, two calls that return, order 2 is a key of the
index and sits in a bid queue, but in the queue of the level of price 100 and in no queue of a
level of its own limit price. -/
theorem C1_counterexample :
    Reachable bookNan ∧ indexContains bookNan.orders 2 = true ∧
    ∃ o ∈ bookNan.resting, o.order_id = 2 ∧ o.side = Side.Buy ∧
      (100, [Order.make .GoodTillCancel 1 .Buy 100 10, o]) ∈ bookNan.bids ∧
      ¬ ∃ q, (o.price, q) ∈ bookNan.bids ∧ o ∈ q :=
  ⟨bookNan_reachable, by decide,
    ⟨Order.make .GoodTillCancel 2 .Buy Price.nan 5, by decide, by decide, by decide, by decide,
      by simp [bookNan, Order.make]⟩⟩

/-- C1 as amended: in every state that AddOrder, CancelOrder and Modify calls which return
and carry no `NaN` price produce from the empty book, an order id is a key of the index if
and only if exactly one order with that id sits in the queues of the two sides taken
together, and a resting order with that id sits in the queue of its own side at its own limit
price. -/
theorem C1_index_iff_resting_once {ob : OrderBook} (h : ReachableNum ob) (id : OrderID) :
    (indexContains ob.orders id = true ↔ (ob.resting.map Order.order_id).count id = 1) ∧
    (∀ o ∈ ob.resting, o.order_id = id →
      (o.side = Side.Buy → ∃ q, (o.price, q) ∈ ob.bids ∧ o ∈ q) ∧
      (o.side = Side.Sell → ∃ q, (o.price, q) ∈ ob.asks ∧ o ∈ q)) := by
  have hinv := reachable_inv (reachableNum_reachable h)
  have hnum := reachableNum_inv h
  constructor
  · rw [hinv.index_iff, List.count_eq_of_nodup hinv.ids_nodup]
    by_cases hm : id ∈ ob.resting.map Order.order_id <;> simp [hm]
  · intro o ho _
    constructor
    · intro hs
      rcases List.mem_append.mp ho with h1 | h1
      · obtain ⟨l, hl, hol⟩ := mem_levelOrders.mp h1
        refine ⟨l.2, ?_, hol⟩
        rw [(hnum.bids_price l hl).2 o hol]
        exact hl
      · rw [hinv.asks_side o h1] at hs
        cases hs
    · intro hs
      rcases List.mem_append.mp ho with h1 | h1
      · rw [hinv.bids_side o h1] at hs
        cases hs
      · obtain ⟨l, hl, hol⟩ := mem_levelOrders.mp h1
        refine ⟨l.2, ?_, hol⟩
        rw [(hnum.asks_price l hl).2 o hol]
        exact hl

theorem C1_witness :
    ReachableNum bookBothSides ∧
    (indexContains bookBothSides.orders 2 = true ↔
      (bookBothSides.resting.map Order.order_id).count 2 = 1) ∧
    (∀ o ∈ bookBothSides.resting, o.order_id = 2 →
      (o.side = Side.Buy → ∃ q, (o.price, q) ∈ bookBothSides.bids ∧ o ∈ q) ∧
      (o.side = Side.Sell → ∃ q, (o.price, q) ∈ bookBothSides.asks ∧ o ∈ q)) :=
  ⟨bookBothSides_reachableNum, C1_index_iff_resting_once bookBothSides_reachableNum 2⟩

/-- C2, on the code: in every reachable state, an AddOrder call with a fresh id that has a
counterparty to trade with (CanMatch is true for its side and price) does not return a trade
sequence: the insertion leaves the top levels crossed, the loop starts, its first step fills
one of the two front orders, pops it and reads it through the reference into the destroyed
list node (source lines 308 and 309, or 314 and 315), which is undefined behaviour. -/
theorem C2_crossing_add_undefined {ob : OrderBook} (h : Reachable ob) (order : Order)
    (hfresh : indexContains ob.orders order.order_id = false)
    (hcan : CanMatch ob order.side order.price = true) :
    AddOrder ob order = .error .undefined_behaviour := by
  have hinv := reachable_inv h
  exact AddOrder_crossed hinv.bids_nonempty hinv.asks_nonempty hfresh (fun _ => hcan)
    (canMatch_crosses ob order hcan)

theorem C2_witness :
    Reachable bookTwoAsks ∧ indexContains bookTwoAsks.orders buySeven.order_id = false ∧
    CanMatch bookTwoAsks buySeven.side buySeven.price = true ∧
    AddOrder bookTwoAsks buySeven = .error .undefined_behaviour :=
  ⟨bookTwoAsks_reachable, by decide, by decide,
    C2_crossing_add_undefined bookTwoAsks_reachable buySeven (by decide) (by decide)⟩

/-- C3, on the code: the body of the inner loop calls Fill on the two front orders with the
minimum of their remaining quantities, both calls succeed and one of the two orders is
thereby filled; so in every state the body, instead of building its trade from two live
orders, pops the filled order and reads it again through the reference into the destroyed
list node (source lines 308 and 309, or 314 and 315, and then the trade record of lines 323
to 326), which is undefined behaviour: no execution of the body yields a trade.  The state of
Scenario B, a bid of 10 and an ask of 4 at price 100, is one instance. -/
theorem C3_trade_built_from_destroyed_node :
    (∀ bid ask : Order,
      bid.Fill (min bid.remaining_qty ask.remaining_qty) =
        .ok (bid.filledBy (min bid.remaining_qty ask.remaining_qty)) ∧
      ask.Fill (min bid.remaining_qty ask.remaining_qty) =
        .ok (ask.filledBy (min bid.remaining_qty ask.remaining_qty)) ∧
      ((bid.filledBy (min bid.remaining_qty ask.remaining_qty)).isFilled = true ∨
        (ask.filledBy (min bid.remaining_qty ask.remaining_qty)).isFilled = true)) ∧
    (∀ ob, matchStep ob = .error .undefined_behaviour) ∧
    frontOf bookCrossed.bids = some (Order.make .GoodTillCancel 1 .Buy 100 10) ∧
    frontOf bookCrossed.asks = some (Order.make .GoodTillCancel 2 .Sell 100 4) ∧
    matchStep bookCrossed = .error .undefined_behaviour :=
  ⟨fun bid ask => ⟨Fill_min_left bid ask, Fill_min_right bid ask, fills_one bid ask⟩,
    matchStep_undefined, rfl, rfl, matchStep_undefined bookCrossed⟩

/-- C4, on the code: in every reachable state, a FillAndKill order with a fresh id is either
rejected, the call returning the unchanged state and no trade, or, when it can match,
inserted and handed to the loop, whose first step reads a destroyed node: the call that
introduces a FillAndKill order never returns with the order filled or its residual
cancelled. -/
theorem C4_fill_and_kill_undefined {ob : OrderBook} (h : Reachable ob) (order : Order)
    (hfresh : indexContains ob.orders order.order_id = false)
    (hfak : order.order_type = OrderType.FillAndKill) :
    (CanMatch ob order.side order.price = false → AddOrder ob order = .ok (ob, [])) ∧
    (CanMatch ob order.side order.price = true →
      AddOrder ob order = .error .undefined_behaviour) := by
  have hinv := reachable_inv h
  constructor
  · intro hc
    simp [AddOrder, hfresh, hfak, hc]
  · intro hc
    exact AddOrder_crossed hinv.bids_nonempty hinv.asks_nonempty hfresh (fun _ => hc)
      (canMatch_crosses ob order hc)

theorem C4_witness :
    Reachable bookOneAsk ∧
    indexContains bookOneAsk.orders (Order.make .FillAndKill 2 .Buy 100 8).order_id = false ∧
    CanMatch bookOneAsk Side.Buy 100 = true ∧
    AddOrder bookOneAsk (Order.make .FillAndKill 2 .Buy 100 8) = .error .undefined_behaviour :=
  ⟨bookOneAsk_reachable, by decide, by decide,
    (C4_fill_and_kill_undefined bookOneAsk_reachable (Order.make .FillAndKill 2 .Buy 100 8)
      (by decide) rfl).2 (by decide)⟩

/-- C5, on the code: the two operations that are to remove an emptied level do not return.
In the reachable book holding the single order 1, a buy of 10 at price 100, `CancelOrder(1)`
reads the erased index node before it reaches the level (source lines 192 to 195), and the
sell of 10 at price 100 that would empty the level by a fill is stopped in the loop by the
read of the popped order (lines 308 and 309). -/
theorem C5_level_removal_undefined :
    Reachable bookOneBid ∧
    CancelOrder bookOneBid 1 = .error .undefined_behaviour ∧
    AddOrder bookOneBid (Order.make .GoodTillCancel 2 .Sell 100 10) =
      .error .undefined_behaviour :=
  ⟨bookOneBid_reachable, by decide, by decide⟩

/-- C6: for every book state and every order whose id is already a key of the index, AddOrder
returns no trades and the very same state (both sides with every remaining quantity, the
index, hence Size), whatever the side, kind, price and quantity of the order. -/
theorem C6_duplicate_id_is_noop (ob : OrderBook) (order : Order)
    (h : indexContains ob.orders order.order_id = true) :
    AddOrder ob order = .ok (ob, []) := by
  simp [AddOrder, h]

theorem C6_witness :
    indexContains bookOneBid.orders (Order.make .FillAndKill 1 .Sell 90 3).order_id = true ∧
    AddOrder bookOneBid (Order.make .FillAndKill 1 .Sell 90 3) = .ok (bookOneBid, []) :=
  ⟨by decide, C6_duplicate_id_is_noop bookOneBid _ (by decide)⟩

/-- C7: for every book state (its two maps in comparator order) and every FillAndKill order
with a fresh id that cannot match (a Buy at price p when the ask side is empty or its lowest
price exceeds p, a Sell at price p when the bid side is empty or its highest price is below
p), AddOrder returns no trades and the unchanged state; and CanMatch is true exactly when, for
a Buy, the asks are non-empty with lowest price at most p, and for a Sell, the bids are
non-empty with highest price at least p. -/
theorem C7_fak_rejected_iff_cannot_match (ob : OrderBook) (order : Order)
    (hb : ob.bids.Pairwise (fun a b => a.1 > b.1))
    (ha : ob.asks.Pairwise (fun a b => a.1 < b.1))
    (hfresh : indexContains ob.orders order.order_id = false)
    (hfak : order.order_type = OrderType.FillAndKill)
    (hcannot :
      (order.side = Side.Buy ∧
        (lowestPrice ob.asks = none ∨ ∃ a, lowestPrice ob.asks = some a ∧ order.price < a)) ∨
      (order.side = Side.Sell ∧
        (highestPrice ob.bids = none ∨ ∃ b, highestPrice ob.bids = some b ∧ b < order.price))) :
    AddOrder ob order = .ok (ob, []) ∧
    (∀ p, CanMatch ob Side.Buy p = true ↔ ∃ a, lowestPrice ob.asks = some a ∧ a ≤ p) ∧
    (∀ p, CanMatch ob Side.Sell p = true ↔ ∃ b, highestPrice ob.bids = some b ∧ p ≤ b) := by
  refine ⟨?_, CanMatch_buy_iff ha, CanMatch_sell_iff hb⟩
  have hcan : ¬ CanMatch ob order.side order.price = true := by
    intro hc
    rcases hcannot with ⟨hs, hbuy⟩ | ⟨hs, hsell⟩
    · rw [hs] at hc
      obtain ⟨a, h1, h2⟩ := (CanMatch_buy_iff ha _).mp hc
      rcases hbuy with h3 | ⟨a1, h3, h4⟩
      · rw [h3] at h1; cases h1
      · rw [h3] at h1; cases h1; exact Price.not_le_of_lt h4 h2
    · rw [hs] at hc
      obtain ⟨b, h1, h2⟩ := (CanMatch_sell_iff hb _).mp hc
      rcases hsell with h3 | ⟨b1, h3, h4⟩
      · rw [h3] at h1; cases h1
      · rw [h3] at h1; cases h1; exact Price.not_le_of_lt h4 h2
  simp [AddOrder, hfresh, hfak, hcan]

theorem C7_witness :
    AddOrder bookOneBid (Order.make .FillAndKill 2 .Sell 101 5) = .ok (bookOneBid, []) ∧
    (∀ p, CanMatch bookOneBid Side.Buy p = true ↔
      ∃ a, lowestPrice bookOneBid.asks = some a ∧ a ≤ p) ∧
    (∀ p, CanMatch bookOneBid Side.Sell p = true ↔
      ∃ b, highestPrice bookOneBid.bids = some b ∧ p ≤ b) :=
  C7_fak_rejected_iff_cannot_match bookOneBid (Order.make .FillAndKill 2 .Sell 101 5)
    (by simp [bookOneBid]) (by simp [bookOneBid]) (by decide) rfl
    (Or.inr ⟨rfl, Or.inr ⟨100, rfl, by decide⟩⟩)

/-- C8, on the code: for every book state and every id that is a key of the index,
CancelOrder does not return: line 192 binds `order` and `order_iter` as references into the
index node, line 193 erases the node, and line 195 reads `order`, which is undefined
behaviour; no state with the order removed is produced. -/
theorem C8_cancel_reads_erased_entry (ob : OrderBook) (id : OrderID)
    (hc : indexContains ob.orders id = true) :
    CancelOrder ob id = .error .undefined_behaviour ∧ ∀ ob1, CancelOrder ob id ≠ .ok ob1 := by
  refine ⟨CancelOrder_present hc, fun ob1 h1 => ?_⟩
  rw [CancelOrder_present hc] at h1
  cases h1

theorem C8_witness :
    Reachable bookTwoAsks ∧ indexContains bookTwoAsks.orders 1 = true ∧
    CancelOrder bookTwoAsks 1 = .error .undefined_behaviour ∧
    ∀ ob1, CancelOrder bookTwoAsks 1 ≠ .ok ob1 :=
  ⟨bookTwoAsks_reachable, by decide, C8_cancel_reads_erased_entry bookTwoAsks 1 (by decide)⟩

/-- C9: for every book state and every id that is not a key of the index, CancelOrder returns
the unchanged state and Modify returns the unchanged state with no trades; neither fails. -/
theorem C9_unknown_id_is_noop (ob : OrderBook) (id : OrderID) (side : Side) (price : Price)
    (qty : Quantity) (h : indexContains ob.orders id = false) :
    CancelOrder ob id = .ok ob ∧ Modify ob ⟨id, side, price, qty⟩ = .ok (ob, []) := by
  refine ⟨CancelOrder_absent h, ?_⟩
  simp [Modify, h]

theorem C9_witness :
    indexContains bookOneBid.orders 7 = false ∧
    CancelOrder bookOneBid 7 = .ok bookOneBid ∧
    Modify bookOneBid ⟨7, Side.Sell, 90, 4⟩ = .ok (bookOneBid, []) :=
  ⟨by decide, C9_unknown_id_is_noop bookOneBid 7 Side.Sell 90 4 (by decide)⟩

/-- C10, on the code: for every book state and every id that is a key of the index, Modify
does not return: its call of CancelOrder reads the erased index node (source lines 192 to
195), and line 222 would read `existing_order` through a reference into the same erased node;
no trades and no final state are produced. -/
theorem C10_modify_undefined (ob : OrderBook) (id : OrderID) (newSide : Side)
    (newPrice : Price) (newQty : Quantity) (hc : indexContains ob.orders id = true) :
    Modify ob ⟨id, newSide, newPrice, newQty⟩ = .error .undefined_behaviour ∧
    CancelOrder ob id = .error .undefined_behaviour := by
  exact ⟨Modify_present hc, CancelOrder_present hc⟩

theorem C10_witness :
    Reachable bookOneBid ∧ indexContains bookOneBid.orders 1 = true ∧
    Modify bookOneBid ⟨1, Side.Buy, 101, 5⟩ = .error .undefined_behaviour ∧
    CancelOrder bookOneBid 1 = .error .undefined_behaviour :=
  ⟨bookOneBid_reachable, by decide, C10_modify_undefined bookOneBid 1 Side.Buy 101 5 (by decide)⟩

/-- C11: for every order and every quantity, Fill with a quantity not above the remaining one
succeeds and lowers the remaining quantity by it, leaving id, side, kind, price and initial
quantity as they were; Fill with a larger quantity fails with the logic error and yields no
updated order, so the remaining quantity is never clamped to zero. -/
theorem C11_fill_guard (o : Order) (q : Quantity) :
    (q ≤ o.remaining_qty →
      o.Fill q = .ok ⟨o.order_type, o.order_id, o.side, o.price, o.initial_qty,
        o.remaining_qty - q⟩) ∧
    (o.remaining_qty < q → o.Fill q = .error .logic_error ∧ ∀ o1, o.Fill q ≠ .ok o1) := by
  constructor
  · intro h
    simp [Order.Fill, not_lt.mpr h]
  · intro h
    have : o.Fill q = .error .logic_error := by simp [Order.Fill, h]
    refine ⟨this, fun o1 h1 => ?_⟩
    rw [this] at h1
    cases h1

theorem C11_witness :
    (Order.make .GoodTillCancel 1 .Buy 100 10).Fill 4 =
      .ok ⟨.GoodTillCancel, 1, .Buy, 100, 10, 6⟩ ∧
    ((Order.make .GoodTillCancel 1 .Buy 100 10).Fill 11 = .error .logic_error ∧
      ∀ o1, (Order.make .GoodTillCancel 1 .Buy 100 10).Fill 11 ≠ .ok o1) :=
  ⟨(C11_fill_guard (Order.make .GoodTillCancel 1 .Buy 100 10) 4).1 (by decide),
   (C11_fill_guard (Order.make .GoodTillCancel 1 .Buy 100 10) 11).2 (by decide)⟩

/-- C12, the claim as stated fails: in the reachable book holding two buy orders of `2 ^ 31`
each at price 100, the snapshot entry of that level is `(100, 0)` and not the sum `2 ^ 32`. -/
theorem C12_counterexample :
    Reachable bookWrap ∧
    (GetOrderInfos bookWrap).1 = [⟨100, 0⟩] ∧
    (GetOrderInfos bookWrap).1 ≠
      bookWrap.bids.map (fun l => ⟨l.1, (l.2.map Order.remaining_qty).sum⟩) :=
  ⟨bookWrap_reachable, by decide, by decide⟩

/-- C12 as amended: for every book state the snapshot has, for each side, exactly one entry
per level, in the order of that side's map (so descending prices for bids and ascending
prices for asks when the maps are in comparator order), and each entry's quantity is the sum
of the remaining quantities of the level's queue reduced modulo `2 ^ 32`, hence the sum itself
whenever that sum is below `2 ^ 32`. -/
theorem C12_depth_snapshot_mod (ob : OrderBook) :
    (GetOrderInfos ob).1 =
      ob.bids.map (fun l => ⟨l.1, (l.2.map Order.remaining_qty).sum % 2 ^ 32⟩) ∧
    (GetOrderInfos ob).2 =
      ob.asks.map (fun l => ⟨l.1, (l.2.map Order.remaining_qty).sum % 2 ^ 32⟩) ∧
    (∀ l ∈ ob.bids ++ ob.asks, (l.2.map Order.remaining_qty).sum < 2 ^ 32 →
      CreateLevelInfos l.1 l.2 = ⟨l.1, (l.2.map Order.remaining_qty).sum⟩) ∧
    (ob.bids.Pairwise (fun a b => a.1 > b.1) →
      ((GetOrderInfos ob).1.map LevelInfo.price_).Pairwise (fun a b => a > b)) ∧
    (ob.asks.Pairwise (fun a b => a.1 < b.1) →
      ((GetOrderInfos ob).2.map LevelInfo.price_).Pairwise (fun a b => a < b)) := by
  refine ⟨?_, ?_, ?_, ?_, ?_⟩
  · simp [GetOrderInfos, CreateLevelInfos_eq]
  · simp [GetOrderInfos, CreateLevelInfos_eq]
  · intro l _ hlt
    rw [CreateLevelInfos_eq, Nat.mod_eq_of_lt hlt]
  · intro h
    simp only [GetOrderInfos, List.map_map, List.pairwise_map]
    exact h.imp (fun hab => by simpa [CreateLevelInfos] using hab)
  · intro h
    simp only [GetOrderInfos, List.map_map, List.pairwise_map]
    exact h.imp (fun hab => by simpa [CreateLevelInfos] using hab)

/-- C13, on the code: in every state that calls which return and carry no `NaN` price
produce from the empty book, the AddOrder call of a GoodTillCancel order with a fresh id and
a price, not `NaN`, that cannot match returns the state with the order inserted and no
trades, Size growing by one; the CancelOrder of that id which follows does not return: it
reads the erased index node (source lines 192 to 195), so the state is not restored.  On the
empty book this is the run of `main`. -/
theorem C13_cancel_after_add_undefined {ob : OrderBook} (h : ReachableNum ob) (order : Order)
    (hp : order.price ≠ Price.nan)
    (hfresh : indexContains ob.orders order.order_id = false)
    (hg : order.order_type = OrderType.GoodTillCancel)
    (hcan : CanMatch ob order.side order.price = false) :
    AddOrder ob order = .ok (ob.inserted order, []) ∧
    (ob.inserted order).Size = ob.Size + 1 ∧
    CancelOrder (ob.inserted order) order.order_id = .error .undefined_behaviour ∧
    ∀ ob2, CancelOrder (ob.inserted order) order.order_id ≠ .ok ob2 := by
  have hinv := reachable_inv (reachableNum_reachable h)
  have hnum := reachableNum_inv h
  have hx := exits_of_cannot_match hinv.exits (fun l hl => (hnum.bids_price l hl).1)
    (fun l hl => (hnum.asks_price l hl).1) order hp hcan
  have hc : CancelOrder (ob.inserted order) order.order_id = .error .undefined_behaviour := by
    apply CancelOrder_present
    have hi : (ob.inserted order).orders =
        indexInsert ob.orders order.order_id ⟨order.order_type, order.side, order.price⟩ := rfl
    rw [hi, indexContains_insert _ hfresh]
    exact Or.inr rfl
  refine ⟨AddOrder_rest hinv order hfresh hg hx, ?_, hc, fun ob2 h2 => ?_⟩
  · simp [OrderBook.Size, OrderBook.inserted, indexInsert, hfresh]
  · rw [hc] at h2
    cases h2

theorem C13_witness :
    ReachableNum OrderBook.empty ∧
    OrderBook.empty.inserted (Order.make .GoodTillCancel 1 .Buy 100 10) = bookOneBid ∧
    AddOrder OrderBook.empty (Order.make .GoodTillCancel 1 .Buy 100 10) =
      .ok (OrderBook.empty.inserted (Order.make .GoodTillCancel 1 .Buy 100 10), []) ∧
    (OrderBook.empty.inserted (Order.make .GoodTillCancel 1 .Buy 100 10)).Size =
      OrderBook.empty.Size + 1 ∧
    CancelOrder (OrderBook.empty.inserted (Order.make .GoodTillCancel 1 .Buy 100 10))
        (Order.make .GoodTillCancel 1 .Buy 100 10).order_id = .error .undefined_behaviour ∧
    ∀ ob2, CancelOrder (OrderBook.empty.inserted (Order.make .GoodTillCancel 1 .Buy 100 10))
        (Order.make .GoodTillCancel 1 .Buy 100 10).order_id ≠ .ok ob2 :=
  ⟨ReachableNum.empty, by decide,
    C13_cancel_after_add_undefined ReachableNum.empty (Order.make .GoodTillCancel 1 .Buy 100 10)
      (by decide) (by decide) rfl (by decide)⟩

/-- C14, on the code: on the empty book, for all distinct ids, prices `p2 ≤ p1` and
quantities `q2 < q1` (positive or not), the first call returns with the buy order resting alone, and the
second call does not return a trade: the loop fills the incoming sell order completely (the
bid keeps `q1 - q2`), pops it at line 314 and reads it at line 315 through the reference into
the destroyed list node, which is undefined behaviour. -/
theorem C14_second_call_undefined (id1 id2 : OrderID) (p1 p2 : Price) (q1 q2 : Quantity)
    (hid : id1 ≠ id2) (hp : p2 ≤ p1) (hq : q2 < q1) :
    AddOrder OrderBook.empty (Order.make .GoodTillCancel id1 .Buy p1 q1) =
      .ok (⟨[(p1, [Order.make .GoodTillCancel id1 .Buy p1 q1])], [],
        [(id1, ⟨.GoodTillCancel, .Buy, p1⟩)]⟩, []) ∧
    ((Order.make .GoodTillCancel id2 .Sell p2 q2).filledBy (min q1 q2)).isFilled = true ∧
    ((Order.make .GoodTillCancel id1 .Buy p1 q1).filledBy (min q1 q2)).isFilled = false ∧
    AddOrder ⟨[(p1, [Order.make .GoodTillCancel id1 .Buy p1 q1])], [],
        [(id1, ⟨.GoodTillCancel, .Buy, p1⟩)]⟩ (Order.make .GoodTillCancel id2 .Sell p2 q2) =
      .error .undefined_behaviour := by
  have hmin : min q1 q2 = q2 := Nat.min_eq_right (Nat.le_of_lt hq)
  refine ⟨?_, ?_, ?_, ?_⟩
  · have := AddOrder_rest empty_inv (Order.make .GoodTillCancel id1 .Buy p1 q1)
      (by simp [OrderBook.empty, indexContains]) rfl
      (by simp [loopExits, OrderBook.inserted, OrderBook.empty, Order.make, levelPush])
    rw [this]
    simp [OrderBook.inserted, OrderBook.empty, Order.make, levelPush, indexInsert, indexContains]
  · simp [Order.isFilled, Order.filledBy, Order.make, hmin]
  · simp only [Order.isFilled, Order.filledBy, Order.make, hmin, beq_eq_false_iff_ne]
    exact Nat.sub_ne_zero_of_lt hq
  · apply AddOrder_crossed
    · intro l hl
      simp only [List.mem_singleton] at hl
      rw [hl]; simp
    · intro l hl
      simp at hl
    · simp only [indexContains, Order.make, List.any_cons, List.any_nil, Bool.or_false,
        beq_eq_false_iff_ne]
      exact hid
    · intro hk
      simp [Order.make] at hk
    · apply canMatch_crosses
      simp only [CanMatch, Order.make, decide_eq_true_eq]
      exact hp

theorem C14_witness :
    AddOrder OrderBook.empty (Order.make .GoodTillCancel 1 .Buy 100 10) =
      .ok (⟨[(100, [Order.make .GoodTillCancel 1 .Buy 100 10])], [],
        [(1, ⟨.GoodTillCancel, .Buy, 100⟩)]⟩, []) ∧
    ((Order.make .GoodTillCancel 2 .Sell 100 4).filledBy (min 10 4)).isFilled = true ∧
    ((Order.make .GoodTillCancel 1 .Buy 100 10).filledBy (min 10 4)).isFilled = false ∧
    AddOrder ⟨[(100, [Order.make .GoodTillCancel 1 .Buy 100 10])], [],
        [(1, ⟨.GoodTillCancel, .Buy, 100⟩)]⟩ (Order.make .GoodTillCancel 2 .Sell 100 4) =
      .error .undefined_behaviour :=
  C14_second_call_undefined 1 2 100 100 10 4 (by decide) (by decide) (by decide)

/-- C15, on the code: in every reachable state, whenever the insertion of a fresh, accepted
order leaves the book crossed, that is, both sides non-empty and the key of the top bid level
not less than the key of the top ask level, the AddOrder call does not return an uncrossed
book: the loop that is to uncross it reads a destroyed node in its first step. -/
theorem C15_uncrossing_undefined {ob : OrderBook} (h : Reachable ob) (order : Order)
    (hfresh : indexContains ob.orders order.order_id = false)
    (hacc : order.order_type = OrderType.FillAndKill →
      CanMatch ob order.side order.price = true)
    (hx : loopExits (ob.inserted order) = false) :
    AddOrder ob order = .error .undefined_behaviour ∧ ∀ r, AddOrder ob order ≠ .ok r := by
  have hinv := reachable_inv h
  have he := AddOrder_crossed hinv.bids_nonempty hinv.asks_nonempty hfresh hacc hx
  refine ⟨he, fun r hr => ?_⟩
  rw [he] at hr
  cases hr

theorem C15_witness :
    Reachable bookOneBid ∧
    loopExits (bookOneBid.inserted (Order.make .GoodTillCancel 2 .Sell 90 4)) = false ∧
    AddOrder bookOneBid (Order.make .GoodTillCancel 2 .Sell 90 4) =
      .error .undefined_behaviour ∧
    ∀ r, AddOrder bookOneBid (Order.make .GoodTillCancel 2 .Sell 90 4) ≠ .ok r :=
  ⟨bookOneBid_reachable, by decide,
    C15_uncrossing_undefined bookOneBid_reachable (Order.make .GoodTillCancel 2 .Sell 90 4)
      (by decide) (fun hk => by simp [Order.make] at hk) (by decide)⟩

/-- C16, on the code: for every state, AddOrder and Modify never end in the logic error of
Order::Fill, the loop asking each front order for no more than it has; but the calls do not
complete: in the reachable book holding a buy of 10 at price 100, the sell of 4 at price 100
ends in the read of the popped order right after its two Fill calls, and the Modify of the
resting order ends in the read of the erased index node. -/
theorem C16_calls_do_not_complete :
    (∀ ob order, AddOrder ob order ≠ .error .logic_error) ∧
    (∀ ob m, Modify ob m ≠ .error .logic_error) ∧
    Reachable bookOneBid ∧
    AddOrder bookOneBid (Order.make .GoodTillCancel 2 .Sell 100 4) =
      .error .undefined_behaviour ∧
    Modify bookOneBid ⟨1, Side.Buy, 100, 0⟩ = .error .undefined_behaviour := by
  refine ⟨?_, ?_, bookOneBid_reachable, by decide, by decide⟩
  · intro ob order h
    rcases AddOrder_error h with h1 | h1 <;> cases h1
  · intro ob m h
    by_cases hc : indexContains ob.orders m.order_id = true
    · rw [Modify_present hc] at h
      cases h
    · have hf : indexContains ob.orders m.order_id = false := by simpa using hc
      simp [Modify, hf] at h

/-- C17, on the code: for every book state whose two top levels cross and have a front order
each, which is every state the loop has work on, the loop does not terminate normally,
whatever the number of iterations allowed: its first step fills one of the two front orders,
pops it and reads it through the reference into the destroyed node. -/
theorem C17_loop_undefined (ob : OrderBook) (hx : loopExits ob = false)
    (hb : frontOf ob.bids ≠ none) (ha : frontOf ob.asks ≠ none) :
    ∀ (fuel : Nat) (ts : Trades),
      matchLoop (fuel + 1) ob ts = .error .undefined_behaviour := by
  intro fuel ts
  exact matchLoop_crossed hx hb ha fuel ts

theorem C17_witness :
    AddOrder bookOneBid (Order.make .GoodTillCancel 2 .Sell 100 4) =
      MatchOrders bookCrossed ∧
    loopExits bookCrossed = false ∧
    ∀ (fuel : Nat) (ts : Trades),
      matchLoop (fuel + 1) bookCrossed ts = .error .undefined_behaviour :=
  ⟨by decide, by decide, C17_loop_undefined bookCrossed (by decide) (by decide) (by decide)⟩

/-- C18, the claim as stated fails: after `AddOrder(GoodTillCancel, 1, Buy, 100, 0)` on the
empty book, order 1 is in the index and in its queue with remaining quantity 0, that is,
filled. -/
theorem C18_counterexample :
    Reachable bookZero ∧ indexContains bookZero.orders 1 = true ∧
    ∃ o ∈ bookZero.resting, o.order_id = 1 ∧ o.isFilled = true ∧ ¬ 0 < o.remaining_qty :=
  ⟨bookZero_reachable, by decide,
    ⟨Order.make .GoodTillCancel 1 .Buy 100 0, by decide, by decide, by decide, by decide⟩⟩

/-- C18 as amended: in every state that AddOrder, CancelOrder and Modify calls which return
and whose submitted quantities are all positive produce from the empty book, every resting
order has remaining quantity above zero, and every key of the index belongs to such an order,
which is therefore not filled. -/
theorem C18_resting_orders_unfilled {ob : OrderBook} (h : ReachablePos ob) :
    (∀ o ∈ ob.resting, 0 < o.remaining_qty ∧ o.isFilled = false) ∧
    (∀ e ∈ ob.orders, ∃ o ∈ ob.resting, o.order_id = e.1 ∧ 0 < o.remaining_qty ∧
      o.isFilled = false) := by
  have hpos := reachablePos_allPositive h
  have hinv := reachable_inv (reachablePos_reachable h)
  have hboth : ∀ o ∈ ob.resting, 0 < o.remaining_qty ∧ o.isFilled = false := by
    intro o ho
    have := hpos o ho
    refine ⟨this, ?_⟩
    simp only [Order.isFilled, beq_eq_false_iff_ne]
    exact Nat.pos_iff_ne_zero.mp this
  refine ⟨hboth, fun e he => ?_⟩
  have hc : indexContains ob.orders e.1 = true := indexContains_iff.mpr ⟨e, he, rfl⟩
  obtain ⟨o, ho, hid⟩ := List.mem_map.mp ((hinv.index_iff e.1).mp hc)
  exact ⟨o, ho, hid, hboth o ho⟩

theorem C18_witness :
    ReachablePos bookBothSides ∧
    (∀ o ∈ bookBothSides.resting, 0 < o.remaining_qty ∧ o.isFilled = false) ∧
    (∀ e ∈ bookBothSides.orders, ∃ o ∈ bookBothSides.resting, o.order_id = e.1 ∧
      0 < o.remaining_qty ∧ o.isFilled = false) :=
  ⟨bookBothSides_reachablePos, C18_resting_orders_unfilled bookBothSides_reachablePos⟩

/-- C19, on the code: no call of AddOrder that returns returns a trade, in any state; a call
that has something to trade does not return.  In the reachable book holding a buy of 10 at
price 100, the sell of 4 at price 90 ends in the read of the popped order; and in the
reachable book holding a sell of 5 at price 100, the buy at price `NaN`, for which CanMatch is
false, is inserted as the only bid level, passes the test `bid_price < ask_price` of line 294
as not less, and ends in the same read. -/
theorem C19_no_trade_is_returned :
    (∀ ob order r, AddOrder ob order = .ok r → r.2 = []) ∧
    Reachable bookOneBid ∧
    AddOrder bookOneBid (Order.make .GoodTillCancel 2 .Sell 90 4) =
      .error .undefined_behaviour ∧
    Reachable bookOneAsk ∧
    CanMatch bookOneAsk Side.Buy Price.nan = false ∧
    AddOrder bookOneAsk (Order.make .GoodTillCancel 2 .Buy Price.nan 5) =
      .error .undefined_behaviour := by
  refine ⟨?_, bookOneBid_reachable, by decide, bookOneAsk_reachable, by decide, by decide⟩
  intro ob order r h
  rcases AddOrder_ok h with h1 | ⟨h1, _⟩ <;> rw [h1]

/-- C20, the claim as stated fails: on the empty book the GoodTillCancel buy of quantity 0
at price 100 has `q = 0` and `L = 0`, so `q > L` is false and the claim has it absent from the
index, yet AddOrder leaves it resting, in the index. -/
theorem C20_counterexample :
    Reachable OrderBook.empty ∧
    indexContains OrderBook.empty.orders 1 = false ∧
    AddOrder OrderBook.empty (Order.make .GoodTillCancel 1 .Buy 100 0) = .ok (bookZero, []) ∧
    ¬ (crossingTotal Side.Buy 100 (oppositeOrders OrderBook.empty Side.Buy) <
        (Order.make .GoodTillCancel 1 .Buy 100 0).remaining_qty) ∧
    indexContains bookZero.orders 1 = true :=
  ⟨Reachable.empty, by decide, by decide, by decide, by decide⟩

/-- C20 as amended: in every state that calls which return and carry no `NaN` price produce
from the empty book, an accepted AddOrder call with an order of quantity `q` and a limit
price `p`, not `NaN`, that no resting order of the opposite side crosses (so that `L = 0`)
returns; the quantities of the returned trades sum to `min q L`, there being no trade; and a
GoodTillCancel order rests afterwards on its own side with remaining `q - min q L`, which is
`q`, and is in the index, also when `q = 0`. -/
theorem C20_traded_quantity {ob : OrderBook} (h : ReachableNum ob) (order : Order)
    (hp : order.price ≠ Price.nan)
    (hfresh : indexContains ob.orders order.order_id = false)
    (hacc : order.order_type = OrderType.FillAndKill →
      CanMatch ob order.side order.price = true)
    (hno : ∀ o ∈ oppositeOrders ob order.side, crosses order.side order.price o = false) :
    crossingTotal order.side order.price (oppositeOrders ob order.side) = 0 ∧
    ∃ ob1 ts, AddOrder ob order = .ok (ob1, ts) ∧
      tradedSum ts = min order.remaining_qty
        (crossingTotal order.side order.price (oppositeOrders ob order.side)) ∧
      (∀ t ∈ ts, t.ask_trade.quantity = t.bid_trade.quantity) ∧
      (order.order_type = OrderType.GoodTillCancel →
        order.filledBy (min order.remaining_qty
            (crossingTotal order.side order.price (oppositeOrders ob order.side))) ∈
          levelOrders (sameSideLevels ob1 order.side) ∧
        (order.filledBy (min order.remaining_qty
            (crossingTotal order.side order.price (oppositeOrders ob order.side)))).remaining_qty =
          order.remaining_qty ∧
        indexContains ob1.orders order.order_id = true) := by
  have hinv := reachable_inv (reachableNum_reachable h)
  have hnum := reachableNum_inv h
  have hx := rest_exits hinv hnum order hp hno
  have hz := crossingTotal_eq_zero hno
  have hg : order.order_type = OrderType.GoodTillCancel := by
    cases ht : order.order_type with
    | GoodTillCancel => rfl
    | FillAndKill =>
      rw [canMatch_crosses ob order (hacc ht)] at hx
      cases hx
  refine ⟨hz, ob.inserted order, [], AddOrder_rest hinv order hfresh hg hx, ?_,
    fun t ht => absurd ht (List.not_mem_nil t), fun _ => ?_⟩
  · rw [hz, Nat.min_zero]; rfl
  · rw [hz, Nat.min_zero, filledBy_zero]
    refine ⟨?_, rfl, ?_⟩
    · cases hs : order.side with
      | Buy =>
        simp only [sameSideLevels, OrderBook.inserted, hs, if_true]
        exact (levelPush_perm _ _ _ _).mem_iff.mpr (List.mem_cons_self _ _)
      | Sell =>
        simp only [sameSideLevels, OrderBook.inserted, hs, reduceCtorEq, if_false]
        exact (levelPush_perm _ _ _ _).mem_iff.mpr (List.mem_cons_self _ _)
    · have hi : (ob.inserted order).orders =
          indexInsert ob.orders order.order_id ⟨order.order_type, order.side, order.price⟩ := rfl
      rw [hi, indexContains_insert _ hfresh]
      exact Or.inr rfl

theorem C20_witness :
    ReachableNum bookBothSides ∧ buySeven.price ≠ Price.nan ∧
    indexContains bookBothSides.orders buySeven.order_id = false ∧
    crossingTotal buySeven.side buySeven.price (oppositeOrders bookBothSides buySeven.side) = 0 ∧
    ∃ ob1 ts, AddOrder bookBothSides buySeven = .ok (ob1, ts) ∧
      tradedSum ts = min buySeven.remaining_qty
        (crossingTotal buySeven.side buySeven.price
          (oppositeOrders bookBothSides buySeven.side)) ∧
      (∀ t ∈ ts, t.ask_trade.quantity = t.bid_trade.quantity) ∧
      (buySeven.order_type = OrderType.GoodTillCancel →
        buySeven.filledBy (min buySeven.remaining_qty
            (crossingTotal buySeven.side buySeven.price
              (oppositeOrders bookBothSides buySeven.side))) ∈
          levelOrders (sameSideLevels ob1 buySeven.side) ∧
        (buySeven.filledBy (min buySeven.remaining_qty
            (crossingTotal buySeven.side buySeven.price
              (oppositeOrders bookBothSides buySeven.side)))).remaining_qty =
          buySeven.remaining_qty ∧
        indexContains ob1.orders buySeven.order_id = true) :=
  ⟨bookBothSides_reachableNum, by decide, by decide,
    C20_traded_quantity bookBothSides_reachableNum buySeven (by decide) (by decide)
      (fun hk => by simp [buySeven, Order.make] at hk) (by decide)⟩

end OB
